import Mathlib

/-!
Verification of the hanoidb-rs storage engine (shallow embedding).

Each definition below is translated from the Rust sources of the repository
(`src/entry.rs`, `src/writer.rs`, `src/block.rs`, `src/tree.rs`, `src/trailer.rs`,
`src/nursery.rs`, `src/merger.rs`, `src/level.rs`, `src/db.rs`).  Bytes are
modelled as `Nat` values, byte strings as `List Nat`, machine integers as `Nat`
with explicit `% 2^w` where the Rust code truncates, and fallible operations
return `Except Err` or pair the mutated state with `Option Err` (mirroring
`&mut self` receivers whose mutations survive an early `return Err`).
Loops that the Rust source expresses with unbounded `loop`/recursion take an
explicit fuel argument; exhausting it yields the artificial error `Err.fuelOut`,
and Rust panics (`unwrap`, `expect`, slice-index panics, `unreachable!`) are the
artificial error `Err.crash`.
-/

namespace HanoiDB

/-! ## Errors (from `src/error.rs`) -/

inductive Err where
  | invalidTreeFormat (magic : List Nat)
  | corruptedFile (reason : String)
  | invalidCompression (byte : Nat)
  | incorrectBlockLength (expected got : Nat)
  | posLenEntryRequired
  | invalidEntryTag (tag : Nat)
  | ioErr
  | ioAlreadyExists
  | endOfFile
  | incompleteEntry
  | outOfOrderWrite
  | bloomFilterTooLarge
  | bloomFilterCorrupted
  | fuelOut
  | crash
deriving DecidableEq

instance {ε α : Type} [DecidableEq ε] [DecidableEq α] : DecidableEq (Except ε α) := fun a b =>
  match a, b with
  | .error x, .error y =>
    if h : x = y then isTrue (by rw [h]) else isFalse (fun hc => by cases hc; exact h rfl)
  | .ok x, .ok y =>
    if h : x = y then isTrue (by rw [h]) else isFalse (fun hc => by cases hc; exact h rfl)
  | .error _, .ok _ => isFalse (fun hc => by cases hc)
  | .ok _, .error _ => isFalse (fun hc => by cases hc)

/-! ## Byte-level helpers: big-endian integer encodings -/

def be16 (n : Nat) : List Nat :=
  [n / 256 % 256, n % 256]

def be32 (n : Nat) : List Nat :=
  [n / 16777216 % 256, n / 65536 % 256, n / 256 % 256, n % 256]

def be64 (n : Nat) : List Nat :=
  [n / 72057594037927936 % 256, n / 281474976710656 % 256, n / 1099511627776 % 256,
   n / 4294967296 % 256, n / 16777216 % 256, n / 65536 % 256, n / 256 % 256, n % 256]

/-- Big-endian interpretation of a byte list, as in `u32::from_be_bytes` /
`u64::from_be_bytes` / `u16::from_be_bytes`. -/
def beToNat (l : List Nat) : Nat :=
  l.foldl (fun a b => a * 256 + b) 0

/-- `u32` wrapping subtraction (release-mode `a - b` on `u32`). -/
def u32sub (a b : Nat) : Nat :=
  (a % 4294967296 + 4294967296 - b % 4294967296) % 4294967296

/-- The slice of `file` starting at `pos`, at most `n` bytes long: what a
seek-to-`pos`-then-`read_exact(n)` observes (shorter than `n` only at EOF). -/
def sliceGet (file : List Nat) (pos n : Nat) : List Nat :=
  (file.drop pos).take n

/-! ## CRC32 (IEEE), modelling the external `crc32fast::hash`.

Modelled from the spec: `crc32fast` is an external crate (not under `src/`);
the spec fixes the algorithm as CRC-32 (IEEE), which is implemented here
bitwise with the standard reflected polynomial `0xEDB88320`.  No theorem below
depends on particular hash values, only on the function being deterministic. -/

def crcStep (c : Nat) : Nat :=
  if c % 2 = 1 then Nat.xor (c / 2) 0xEDB88320 else c / 2

def crcByte (c b : Nat) : Nat :=
  crcStep (crcStep (crcStep (crcStep (crcStep (crcStep (crcStep (crcStep (Nat.xor c (b % 256)))))))))

def crc32 (data : List Nat) : Nat :=
  Nat.xor (data.foldl (fun c b => crcByte c b) 0xFFFFFFFF) 0xFFFFFFFF

/-! ## Entry tags (from `src/lib.rs`) -/

def TAG_KV_DATA : Nat := 0x80
def TAG_DELETED : Nat := 0x81
def TAG_POSLEN32 : Nat := 0x82
def TAG_TRANSACT : Nat := 0x83
def TAG_KV_DATA2 : Nat := 0x84
def TAG_DELETED2 : Nat := 0x85
def TAG_END : Nat := 0xFF

def magicBytes : List Nat := [72, 65, 78, 51]

/-! ## Entry (from `src/entry.rs`) -/

inductive Entry where
  | keyVal (key : List Nat) (value : List Nat) (timestamp : Option Nat)
  | deleted (key : List Nat) (timestamp : Option Nat)
  | posLen (blockpos : Nat) (blocklen : Nat) (key : List Nat)
deriving DecidableEq

def Entry.isKeyVal : Entry → Bool
  | .keyVal _ _ _ => true
  | _ => false

def Entry.isDeleted : Entry → Bool
  | .deleted _ _ => true
  | _ => false

def Entry.isPosLen : Entry → Bool
  | .posLen _ _ _ => true
  | _ => false

def Entry.key : Entry → List Nat
  | .keyVal k _ _ => k
  | .deleted k _ => k
  | .posLen _ _ k => k

/-- `Entry::encoded_size` from `src/entry.rs`. -/
def Entry.encodedSize : Entry → Nat
  | .keyVal k v ts => 9 + (1 + (if ts.isSome then 4 else 0) + 4 + k.length + v.length)
  | .deleted k ts => 9 + (1 + (if ts.isSome then 4 else 0) + k.length)
  | .posLen _ _ k => 9 + (1 + 8 + 4 + k.length)

/-- The `tag :: variant-body` bytes of an entry (the part the CRC covers and
that the length header measures). -/
def Entry.body : Entry → List Nat
  | .keyVal k v none => TAG_KV_DATA :: (be32 k.length ++ k ++ v)
  | .keyVal k v (some ts) => TAG_KV_DATA2 :: (be32 ts ++ be32 k.length ++ k ++ v)
  | .deleted k none => TAG_DELETED :: k
  | .deleted k (some ts) => TAG_DELETED2 :: (be32 ts ++ k)
  | .posLen p l k => TAG_POSLEN32 :: (be64 p ++ be32 l ++ k)

/-- `Entry::encode` from `src/entry.rs`: `length(4) | crc32(4) | tag+body | TAG_END`,
where `length = encoded_size - 9` (cast `as u32`) and the CRC is computed over
`tag+body`.  The Rust code writes a zero placeholder and patches the CRC in
afterwards; functionally the result is the bytes below. -/
def Entry.encode (e : Entry) : List Nat :=
  be32 (e.encodedSize - 9) ++ be32 (crc32 e.body) ++ e.body ++ [TAG_END]

/-- Byte comparison as Rust's `Ord` on `Vec<u8>` / `&[u8]` (lexicographic). -/
def cmpBytes : List Nat → List Nat → Ordering
  | [], [] => .eq
  | [], _ :: _ => .lt
  | _ :: _, [] => .gt
  | a :: as', b :: bs' =>
    if a < b then .lt else if b < a then .gt else cmpBytes as' bs'

/-- `a < b` on byte strings. -/
def ltBytes (a b : List Nat) : Bool :=
  cmpBytes a b == Ordering.lt

/-- `Entry::read` from `src/entry.rs` (the version in `src/format.rs` is
identical and additionally returns the number of consumed bytes, `9 + length`;
we return that count, which also equals the stream consumption of the
`entry.rs` version).  Reads from the byte stream `input`; on success the entry
and the count of consumed bytes are returned. -/
def Entry.read (input : List Nat) : Except Err (Entry × Nat) :=
  if input.length < 8 then .error .endOfFile
  else
    let header := input.take 8
    let length := beToNat (header.take 4)
    let origCrc := beToNat (header.drop 4)
    let rest := input.drop 8
    if rest.length < length then .error .incompleteEntry
    else
      let entryData := rest.take length
      if crc32 entryData ≠ origCrc then .error (.corruptedFile "Entry had incorrect CRC32")
      else
        let parsed : Except Err Entry :=
          match entryData with
          | [] => .error .crash
          | tag :: _ =>
            if tag = TAG_KV_DATA then
              if entryData.length < 5 then .error .crash
              else
                let keylen := beToNat ((entryData.drop 1).take 4)
                let kv := entryData.drop 5
                if keylen > kv.length then .error .crash
                else .ok (.keyVal (kv.take keylen) (kv.drop keylen) none)
            else if tag = TAG_KV_DATA2 then
              if entryData.length < 9 then .error .crash
              else
                let ts := beToNat ((entryData.drop 1).take 4)
                let keylen := beToNat ((entryData.drop 5).take 4)
                let kv := entryData.drop 9
                if keylen > kv.length then .error .crash
                else .ok (.keyVal (kv.take keylen) (kv.drop keylen) (some ts))
            else if tag = TAG_DELETED then
              .ok (.deleted (entryData.drop 1) none)
            else if tag = TAG_DELETED2 then
              if entryData.length < 5 then .error .crash
              else
                let ts := beToNat ((entryData.drop 1).take 4)
                .ok (.deleted (entryData.drop 5) (some ts))
            else if tag = TAG_POSLEN32 then
              if entryData.length < 13 then .error .crash
              else
                let blockpos := beToNat ((entryData.drop 1).take 8)
                let blocklen := beToNat ((entryData.drop 9).take 4)
                .ok (.posLen blockpos blocklen (entryData.drop 13))
            else .error (.invalidEntryTag tag)
        match parsed with
        | .error e => .error e
        | .ok entry =>
          match rest.drop length with
          | [] => .error .ioErr
          | t :: _ =>
            if t ≠ TAG_END then .error (.corruptedFile "Last byte of entry wasn't TAG_END")
            else .ok (entry, 9 + length)

/-- Numeric-field truncation performed by the codec: `u32` timestamps and
`u64`/`u32` block positions and lengths are stored modulo their width. -/
def Entry.trunc : Entry → Entry
  | .keyVal k v ts => .keyVal k v (ts.map (· % 4294967296))
  | .deleted k ts => .deleted k (ts.map (· % 4294967296))
  | .posLen p l k => .posLen (p % 18446744073709551616) (l % 4294967296) k

/-- Validity of an entry: its variable-length payload fits the `u32` length
field and its numeric fields fit their on-disk widths. -/
def Entry.Valid (e : Entry) : Prop :=
  e.encodedSize - 9 < 4294967296 ∧
  (match e with
   | .keyVal _ _ (some t) => t < 4294967296
   | .deleted _ (some t) => t < 4294967296
   | .posLen p l _ => p < 18446744073709551616 ∧ l < 4294967296
   | _ => True)

/-! ## Bloom filter (modelled) and Trailer (from `src/trailer.rs`).

Modelled from the spec: `fastbloom::BloomFilter` and the `postcard` codec are
external crates, not part of `src/`.  The spec requires only that the filter
has no false negatives ("Any key present in the file is represented in the
bloom filter") and that the serialization round-trips between writer and
reader ("Either is acceptable if writer and reader round-trip").  We model the
filter as an ideal set of the inserted keys together with its construction
parameters (`with_false_pos(0.01).expected_items(n)` is recorded as the pair
`(1, 100)` and `n`), and the serialization as a self-delimiting byte encoding
of the structure.  Like `postcard`'s output for the filter struct, the
serialization is never the empty byte string. -/

structure Bloom where
  fpNum : Nat
  fpDen : Nat
  expectedItems : Nat
  keys : List (List Nat)
deriving DecidableEq

/-- `BloomFilter::with_false_pos(0.01).expected_items(n)`. -/
def Bloom.withFalsePos001 (expectedItems : Nat) : Bloom :=
  ⟨1, 100, expectedItems, []⟩

def Bloom.insert (b : Bloom) (k : List Nat) : Bloom :=
  { b with keys := k :: b.keys }

def Bloom.contains (b : Bloom) (k : List Nat) : Bool :=
  b.keys.contains k

def Bloom.serialize (b : Bloom) : List Nat :=
  b.fpNum :: b.fpDen :: b.expectedItems :: b.keys.length :: b.keys.flatMap (fun k => k.length :: k)

def Bloom.deserializeKeys : Nat → List Nat → Option (List (List Nat) × List Nat)
  | 0, rest => some ([], rest)
  | n + 1, [] => (fun _ => none) n
  | n + 1, len :: rest =>
    if len ≤ rest.length then
      (Bloom.deserializeKeys n (rest.drop len)).map (fun p => ((rest.take len) :: p.1, p.2))
    else none

def Bloom.deserialize (l : List Nat) : Option Bloom :=
  match l with
  | fpN :: fpD :: exp :: cnt :: rest =>
    (Bloom.deserializeKeys cnt rest).bind
      (fun p => if p.2 = [] then some ⟨fpN, fpD, exp, p.1⟩ else none)
  | _ => none

structure Trailer where
  bloom : Bloom
  rootPos : Nat
deriving DecidableEq

def Trailer.withBloomFilter (bloom : Bloom) (rootPos : Nat) : Trailer :=
  ⟨bloom, rootPos⟩

/-- `Trailer::new` from `src/trailer.rs`: an oversized filter is rejected, an
empty one is replaced by a default filter sized for 1024 expected items at the
0.01 false-positive rate, and otherwise the bytes are deserialized. -/
def Trailer.new (rawBloom : List Nat) (rootPos : Nat) : Except Err Trailer :=
  if rawBloom.length > 4294967295 then .error .bloomFilterTooLarge
  else if rawBloom = [] then .ok ⟨Bloom.withFalsePos001 1024, rootPos⟩
  else
    match Bloom.deserialize rawBloom with
    | some b => .ok ⟨b, rootPos⟩
    | none => .error .bloomFilterCorrupted

/-- `Trailer::encode` from `src/trailer.rs`:
`padding(4x0) | raw_bloom | bloom_len(4B, cast as u32) | root_pos(8B)`. -/
def Trailer.encode (t : Trailer) : List Nat :=
  let rawBloom := t.bloom.serialize
  [0, 0, 0, 0] ++ rawBloom ++ be32 rawBloom.length ++ be64 t.rootPos

/-! ## Writer (from `src/writer.rs`).

The writer's in-memory state and the bytes it has appended to its output file
(`fileBytes`, beginning with the `HAN3` magic).  `Compression::None` is the
only compression the Rust writer ever uses (`compress: Compression::None` in
`with_expected_num_items`), so `compress` is the identity here.  Functions
that mutate `&mut self` and return `Result` are modelled as returning the
mutated state paired with `Option Err`; on `some err` the state is the one at
the Rust early return. -/

def BLOCK_SIZE : Nat := 8 * 1024

def FIRST_BLOCK_POS : Nat := 4

structure WBlock where
  level : Nat
  size : Nat
  members : List Entry
deriving DecidableEq

instance : Inhabited WBlock := ⟨⟨0, 0, []⟩⟩

def WBlock.isSoloInnerBlock (b : WBlock) : Bool :=
  decide (b.level > 0) && b.members.length == 1

structure Writer where
  indexFilePos : Nat
  lastNodePos : Option Nat
  lastNodeSize : Option Nat
  blocks : List WBlock
  bloom : Bloom
  valueCount : Nat
  tombstoneCount : Nat
  fileBytes : List Nat
deriving DecidableEq

/-- `Writer::with_expected_num_items` (file creation aside): a fresh writer
whose output file holds just the magic bytes. -/
def Writer.withExpectedNumItems (expectedNumItems : Nat) : Writer :=
  { indexFilePos := FIRST_BLOCK_POS
    lastNodePos := none
    lastNodeSize := none
    blocks := []
    bloom := Bloom.withFalsePos001 expectedNumItems
    valueCount := 0
    tombstoneCount := 0
    fileBytes := magicBytes }

def Writer.count (w : Writer) : Nat :=
  w.valueCount + w.tombstoneCount

/-- The blocks pushed by the `while last_level > level` loop of
`Writer::get_block_at_level`: empty blocks at levels `last-1, last-2, …, level`. -/
def padLevels : Nat → Nat → List WBlock
  | 0, _ => []
  | Nat.succ l, target => if target < Nat.succ l then ⟨l, 0, []⟩ :: padLevels l target else []

/-- `Writer::get_block_at_level`: the resulting pending-block stack, whose last
element is the block the entry will be appended to. -/
def Writer.getBlockAtLevel (blocks : List WBlock) (level : Nat) : List WBlock :=
  match blocks.getLast? with
  | none => [⟨level, 0, []⟩]
  | some lastB => blocks ++ padLevels lastB.level level

mutual

/-- `Writer::append_to_block`.  The fuel bounds the flush cascade; the Rust
code recurses unboundedly (and for pathological inputs diverges). -/
def Writer.appendToBlock (fuel : Nat) (w : Writer) (level : Nat) (entry : Entry) :
    Writer × Option Err :=
  match fuel with
  | 0 => (w, some Err.fuelOut)
  | Nat.succ f =>
    let tombstoneAdd := if entry.isDeleted then 1 else 0
    let valueAdd := if entry.isKeyVal then 1 else 0
    let blocks := Writer.getBlockAtLevel w.blocks level
    let block := blocks.getLast!
    let newSize := block.size + entry.encodedSize
    let outOfOrder : Bool :=
      match block.members.getLast? with
      | some lastEntry => cmpBytes lastEntry.key entry.key == Ordering.gt
      | none => false
    if outOfOrder then ({ w with blocks := blocks }, some Err.outOfOrderWrite)
    else
      let block' := { block with size := newSize, members := block.members ++ [entry] }
      let w' := { w with
        blocks := blocks.dropLast ++ [block']
        tombstoneCount := w.tombstoneCount + tombstoneAdd
        valueCount := w.valueCount + valueAdd }
      if newSize ≥ BLOCK_SIZE then Writer.flushBlockBuffer f w' else (w', none)
termination_by structural fuel

/-- `Writer::flush_block_buffer`.  Pops the last pending block, appends its
framed bytes (`blocklen(4) | level(2) | compression(1) | TAG_END :: entries`)
to the file and pushes a `PosLen` entry one level up.  The `try_into().unwrap()`
on the block length is the `Err.crash` guard. -/
def Writer.flushBlockBuffer (fuel : Nat) (w : Writer) : Writer × Option Err :=
  match fuel with
  | 0 => (w, some Err.fuelOut)
  | Nat.succ f =>
    match w.blocks.getLast? with
    | none => (w, some Err.crash)
    | some block =>
      let rest := w.blocks.dropLast
      match block.members.head? with
      | none => ({ w with blocks := rest }, some Err.crash)
      | some firstEntry =>
        let contents := TAG_END :: block.members.flatMap Entry.encode
        let compressed := contents
        if 2 + 1 + compressed.length ≥ 4294967296 then ({ w with blocks := rest }, some Err.crash)
        else
          let blocklen := 2 + 1 + compressed.length
          let header := be32 blocklen ++ be16 block.level ++ [0]
          let blockpos := w.indexFilePos
          let w' := { w with
            blocks := rest
            fileBytes := w.fileBytes ++ header ++ compressed
            lastNodePos := some blockpos
            lastNodeSize := some blocklen
            indexFilePos := w.indexFilePos + (header.length + compressed.length) }
          Writer.appendToBlock f w' (block.level + 1)
            (Entry.posLen blockpos blocklen firstEntry.key)
termination_by structural fuel

end

/-- `Writer::add`: non-`PosLen` entries are inserted into the bloom filter,
then the entry is appended to the level-0 block. -/
def Writer.add (fuel : Nat) (w : Writer) (entry : Entry) : Writer × Option Err :=
  let w1 := if entry.isPosLen then w else { w with bloom := w.bloom.insert entry.key }
  Writer.appendToBlock fuel w1 0 entry

/-- The `while let Some(block) = self.blocks.last()` drain loop of
`Writer::close`. -/
def Writer.closeLoop (fuel : Nat) (w : Writer) : Writer × Option Err :=
  match fuel with
  | 0 => (w, some Err.fuelOut)
  | Nat.succ f =>
    match w.blocks.getLast? with
    | none => (w, none)
    | some block =>
      if block.isSoloInnerBlock then (w, none)
      else
        match Writer.flushBlockBuffer (Nat.succ f) w with
        | (w', some e) => (w', some e)
        | (w', none) => Writer.closeLoop f w'

/-- `Writer::close`: drain the pending blocks, write the empty block header if
nothing was ever flushed, then append the encoded trailer. -/
def Writer.close (fuel : Nat) (w : Writer) : Writer × Option Err :=
  match Writer.closeLoop fuel w with
  | (w1, some e) => (w1, some e)
  | (w1, none) =>
    let rootPos := match w1.lastNodePos with
      | some pos => pos
      | none => FIRST_BLOCK_POS
    let w2 := match w1.lastNodePos with
      | some _ => w1
      | none => { w1 with fileBytes := w1.fileBytes ++ [0, 0, 0, 0, 0, 0] }
    let trailer := Trailer.withBloomFilter w2.bloom rootPos
    ({ w2 with fileBytes := w2.fileBytes ++ trailer.encode }, none)

/-- Feeding a list of entries to `Writer::add` one by one, stopping at the
first error (as every caller in the repository does via `?`). -/
def Writer.runAdds (fuel : Nat) (w : Writer) : List Entry → Writer × Option Err
  | [] => (w, none)
  | e :: es =>
    match Writer.add fuel w e with
    | (w', none) => Writer.runAdds fuel w' es
    | (w', some err) => (w', some err)

/-! ## Block reader (from `src/block.rs`) -/

structure BlockR where
  start : Nat
  blocklen : Nat
  level : Nat
  compression : Nat
deriving DecidableEq

/-- `Block::from_start`: read the 8-byte header `blocklen(4) | level(2) |
compression(1) | first-payload-byte(1)` at `start`; an empty block
(`blocklen = 0`) is accepted without the `TAG_END` check. -/
def BlockR.fromStart (file : List Nat) (start : Nat) : Except Err BlockR :=
  let header := sliceGet file start 8
  if header.length < 8 then .error .ioErr
  else
    let blocklen := beToNat (header.take 4)
    let level := beToNat ((header.drop 4).take 2)
    let comp := (header.drop 6).headI
    if comp > 3 then .error (.invalidCompression comp)
    else if blocklen = 0 then .ok ⟨start, blocklen, level, comp⟩
    else if (header.drop 7).headI = TAG_END then .ok ⟨start, blocklen, level, comp⟩
    else .error (.corruptedFile "block entries did not start with TAG_END")

/-- `Block::from_start_length`: the pointer's `length`, minus the 4-byte length
field (wrapping `u32` subtraction), must equal the block's declared
`blocklen`. -/
def BlockR.fromStartLength (file : List Nat) (start length : Nat) : Except Err BlockR :=
  match BlockR.fromStart file start with
  | .error e => .error e
  | .ok block =>
    let expectedLength := u32sub length 4
    if block.blocklen = expectedLength then .ok block
    else .error (.incorrectBlockLength expectedLength block.blocklen)

/-- The entry iteration of `EntryIterator`/`OwnedEntryIterator`: starting at
`s`, while `s < e`, read one entry from the file bytes at offset `s` and
advance by the consumed count; any read error silently ends the iteration.
Each successful read consumes at least 9 bytes, so `e - s + 1` fuel always
suffices; the fuel is an artifact of the embedding. -/
def blockEntriesGo (file : List Nat) : Nat → Nat → Nat → List Entry
  | 0, _, _ => []
  | Nat.succ f, s, e =>
    if s ≥ e then []
    else
      match Entry.read (file.drop s) with
      | .ok (entry, amt) => entry :: blockEntriesGo file f (s + amt) e
      | .error _ => []

/-- `Block::entries` collected to a list: the entries region starts 8 bytes
past the block start and ends at `start + blocklen`. -/
def BlockR.entriesList (file : List Nat) (b : BlockR) : List Entry :=
  blockEntriesGo file (b.blocklen + 1) (b.start + 8) (b.start + b.blocklen)

/-! ## Tree reader (from `src/tree.rs`) -/

structure TreeM where
  fileBytes : List Nat
  trailer : Trailer
deriving DecidableEq

/-- `Tree::read_trailer`: read `bloom_len(4) | root_pos(8)` from the file end,
check the 4 zero padding bytes before the bloom, read the raw bloom, check
`root_pos < len`, and build the trailer. -/
def Tree.readTrailer (file : List Nat) (len : Nat) : Except Err Trailer :=
  if len < 12 then .error .ioErr
  else
    let buffer := sliceGet file (len - 12) 12
    let rootPos := beToNat (buffer.drop 4)
    let bloomLen := beToNat (buffer.take 4)
    let bloomStart := bloomLen + 12
    if len < bloomStart + 4 then .error .ioErr
    else
      let padding := sliceGet file (len - bloomStart - 4) 4
      if padding ≠ [0, 0, 0, 0] then .error (.corruptedFile "missing trailer padding")
      else
        let rawBloom := sliceGet file (len - bloomStart) bloomLen
        if rootPos ≥ len then .error (.corruptedFile "root block position outside bounds of file")
        else Trailer.new rawBloom rootPos

/-- `Tree::from_file`: check the `HAN3` magic and read the trailer. -/
def Tree.fromFile (file : List Nat) : Except Err TreeM :=
  if file.length < 4 then .error .ioErr
  else if file.take 4 = magicBytes then
    match Tree.readTrailer file file.length with
    | .ok trailer => .ok ⟨file, trailer⟩
    | .error e => .error e
  else .error (.invalidTreeFormat (file.take 4))

def TreeM.rootBlock (t : TreeM) : Except Err BlockR :=
  BlockR.fromStart t.fileBytes t.trailer.rootPos

/-- `Tree::block_from_poslen_entry`. -/
def TreeM.blockFromPosLenEntry (t : TreeM) (entry : Entry) : Except Err BlockR :=
  match entry with
  | .posLen blockpos blocklen _ => BlockR.fromStartLength t.fileBytes blockpos blocklen
  | _ => .error .posLenEntryRequired

/-- The `loop` of `Tree::get_entry`: at an internal block take the last entry
not past the key and descend; at a leaf block scan for an exact match.  The
fuel bounds the descent depth. -/
def TreeM.getEntryGo (t : TreeM) : Nat → BlockR → List Nat → Except Err (Option Entry)
  | 0, _, _ => .error .fuelOut
  | Nat.succ f, block, key =>
    let es := block.entriesList t.fileBytes
    if block.level > 0 then
      let taken := es.takeWhile (fun e =>
        !(match e with
          | .posLen _ _ firstKey => ltBytes key firstKey
          | _ => false))
      match taken.getLast? with
      | some innerEntry =>
        match t.blockFromPosLenEntry innerEntry with
        | .ok block' => TreeM.getEntryGo t f block' key
        | .error e => .error e
      | none => .ok none
    else .ok (es.find? (fun e => e.key == key))

/-- `Tree::get_entry`: a bloom miss is an immediate absence, otherwise descend
from the root block. -/
def TreeM.getEntry (t : TreeM) (fuel : Nat) (key : List Nat) : Except Err (Option Entry) :=
  if !(Bloom.contains t.trailer.bloom key) then .ok none
  else
    match t.rootBlock with
    | .ok root => TreeM.getEntryGo t fuel root key
    | .error e => .error e

/-- The loop of `TreeEntryIterator::next` / `OwnedTreeEntryIterator::next`,
collected into the full yielded sequence.  The stack holds the remaining
entries of each open block (last = innermost).  A `PosLen` head opens a child
block (an error there ends the whole iteration, as the Rust `.ok()?` makes
`next` return `None`); other heads are yielded; an exhausted frame is popped. -/
def TreeM.iterGo (t : TreeM) : Nat → List (List Entry) → List Entry
  | 0, _ => []
  | Nat.succ f, stack =>
    match stack.getLast? with
    | none => []
    | some frame =>
      match frame with
      | [] => TreeM.iterGo t f stack.dropLast
      | e :: restFrame =>
        match e with
        | .posLen _ _ _ =>
          match t.blockFromPosLenEntry e with
          | .error _ => []
          | .ok block =>
            TreeM.iterGo t f ((stack.dropLast ++ [restFrame]) ++ [block.entriesList t.fileBytes])
        | _ => e :: TreeM.iterGo t f (stack.dropLast ++ [restFrame])

/-- `Tree::entries` / `Tree::entries_owned` collected to a list (the borrowed
and owned iterators traverse identically). -/
def TreeM.entriesList (t : TreeM) (fuel : Nat) : Except Err (List Entry) :=
  match t.rootBlock with
  | .ok root => .ok (TreeM.iterGo t fuel [root.entriesList t.fileBytes])
  | .error e => .error e

/-! ## File system model.

The repository manipulates a directory of files (`{A,B,C,M,X}-{L}.data`,
`nursery.log`, `nursery.data`).  We model the directory as an association list
from file names to byte contents; `OpenOptions::create_new(true)` on an
existing name fails with the `AlreadyExists` I/O error (`Err.ioAlreadyExists`),
`std::fs::rename`/`remove_file` on a missing source fail with `Err.ioErr`. -/

inductive FsLabel where
  | la
  | lb
  | lc
  | lm
  | lx
deriving DecidableEq

inductive FileName where
  | levelFile (tag : FsLabel) (level : Nat)
  | nurseryData
  | nurseryLog
deriving DecidableEq

def FS : Type := List (FileName × List Nat)

instance : DecidableEq FS := by unfold FS; infer_instance

def fsLookup (fs : FS) (n : FileName) : Option (List Nat) :=
  match fs.find? (fun p => p.1 == n) with
  | some p => some p.2
  | none => none

def fsDrop (fs : FS) (n : FileName) : FS :=
  fs.filter (fun p => !(p.1 == n))

def fsInsert (fs : FS) (n : FileName) (bytes : List Nat) : FS :=
  (n, bytes) :: fsDrop fs n

def fsRemove (fs : FS) (n : FileName) : Except Err FS :=
  match fsLookup fs n with
  | none => .error .ioErr
  | some _ => .ok (fsDrop fs n)

def fsRename (fs : FS) (src dst : FileName) : Except Err FS :=
  match fsLookup fs src with
  | none => .error .ioErr
  | some bytes => .ok (fsInsert (fsDrop fs src) dst bytes)

/-- `Writer::with_expected_num_items` including the
`OpenOptions::new().append(true).create_new(true).open(name)` step: fails if
the file already exists, otherwise creates it holding the magic bytes. -/
def Writer.createNewFS (fs : FS) (name : FileName) (expectedNumItems : Nat) :
    Except Err (Writer × FS) :=
  match fsLookup fs name with
  | some _ => .error .ioAlreadyExists
  | none => .ok (Writer.withExpectedNumItems expectedNumItems, fsInsert fs name magicBytes)

/-! ## Merger (from `src/merger.rs`) -/

structure MergerM where
  a : List Entry
  b : List Entry
  x : Writer
deriving DecidableEq

/-- `MergeOutcome`.  `complete` additionally records the closed `X` file's
bytes (in the Rust code those persist on disk when the writer is closed). -/
inductive MergeOutcome where
  | cont (m : MergerM)
  | complete (count : Nat) (steps : Nat) (xFile : List Nat)
deriving DecidableEq

/-- `Merger::new`: peekable entry iterators over the `A` and `B` trees
(modelled as their collected entry sequences) plus a fresh writer for
`X-{level}.data` expecting `1 << (level + 1)` items. -/
def Merger.new (fs : FS) (level : Nat) (aTree bTree : TreeM) (fuel : Nat) :
    Except Err (MergerM × FS) :=
  match aTree.entriesList fuel with
  | .error e => .error e
  | .ok aL =>
    match bTree.entriesList fuel with
    | .error e => .error e
    | .ok bL =>
      match Writer.createNewFS fs (FileName.levelFile .lx level) (2 ^ (level + 1)) with
      | .error e => .error e
      | .ok (x, fs') => .ok (⟨aL, bL, x⟩, fs')

/-- `Merger::merge_step`: compare the two heads; emit the smaller (or, on
equal keys, discard `A`'s head — it is the older generation — and emit `B`'s
at step-cost 2). -/
def MergerM.mergeStep (fuel : Nat) (m : MergerM) : MergerM × Except Err Nat :=
  match m.a, m.b with
  | [], [] => (m, .ok 0)
  | ae :: as', [] =>
    match Writer.add fuel m.x ae with
    | (x', none) => ({ m with a := as', x := x' }, .ok 1)
    | (x', some e) => ({ m with a := as', x := x' }, .error e)
  | [], be :: bs' =>
    match Writer.add fuel m.x be with
    | (x', none) => ({ m with b := bs', x := x' }, .ok 1)
    | (x', some e) => ({ m with b := bs', x := x' }, .error e)
  | ae :: as', be :: bs' =>
    match cmpBytes ae.key be.key with
    | .lt =>
      match Writer.add fuel m.x ae with
      | (x', none) => ({ m with a := as', x := x' }, .ok 1)
      | (x', some e) => ({ m with a := as', x := x' }, .error e)
    | .eq =>
      match Writer.add fuel m.x be with
      | (x', none) => ({ m with a := as', b := bs', x := x' }, .ok 2)
      | (x', some e) => ({ m with a := as', b := bs', x := x' }, .error e)
    | .gt =>
      match Writer.add fuel m.x be with
      | (x', none) => ({ m with b := bs', x := x' }, .ok 1)
      | (x', some e) => ({ m with b := bs', x := x' }, .error e)

/-- The `for i in 0..work` loop of `Merger::incremental_merge`; `done` counts
the executed iterations. -/
def MergerM.incrementalMergeGo (fuel : Nat) (m : MergerM) :
    Nat → Nat → Except Err MergeOutcome
  | 0, _ => .ok (.cont m)
  | Nat.succ workLeft, done =>
    match MergerM.mergeStep fuel m with
    | (_, .error e) => .error e
    | (m', .ok stepCost) =>
      if stepCost = 0 then
        let count := m'.x.count
        match Writer.close fuel m'.x with
        | (_, some e) => .error e
        | (xc, none) => .ok (.complete count (done + 1) xc.fileBytes)
      else MergerM.incrementalMergeGo fuel m' workLeft (done + 1)

def MergerM.incrementalMerge (fuel : Nat) (m : MergerM) (work : Nat) :
    Except Err MergeOutcome :=
  MergerM.incrementalMergeGo fuel m work 0

/-! ## Command (from `src/db.rs`) -/

inductive Command where
  | promoteFile (path : FileName) (targetLevel : Nat)
  | mergeCmd (steps : Nat) (targetLevel : Nat)
deriving DecidableEq

/-! ## Level (from `src/level.rs`) -/

def levelSize (level : Nat) : Nat := 2 ^ level

structure LevelM where
  level : Nat
  a : Option TreeM
  b : Option TreeM
  c : Option TreeM
  merger : Option MergerM
deriving DecidableEq

def LevelM.dataFile (lv : LevelM) (tag : FsLabel) : FileName :=
  .levelFile tag lv.level

/-- `Level::maybe_create_merger`: if both `A` and `B` trees are present and no
merger exists, instantiate one. -/
def LevelM.maybeCreateMerger (lv : LevelM) (fs : FS) (fuel : Nat) :
    (LevelM × FS) × Option Err :=
  match lv.a, lv.b, lv.merger with
  | some aT, some bT, none =>
    match Merger.new fs lv.level aT bT fuel with
    | .ok (m, fs') => (({ lv with merger := some m }, fs'), none)
    | .error e => ((lv, fs), some e)
  | _, _, _ => ((lv, fs), none)

/-- `Level::close_and_delete_a_and_b`. -/
def LevelM.closeAndDeleteAB (lv : LevelM) (fs : FS) : (LevelM × FS) × Option Err :=
  if !(lv.a.isSome && lv.b.isSome) then ((lv, fs), some Err.crash)
  else
    let lv' := { lv with a := none, b := none }
    match fsRemove fs (lv.dataFile .la) with
    | .error e => ((lv', fs), some e)
    | .ok fs1 =>
      match fsRemove fs1 (lv.dataFile .lb) with
      | .error e => ((lv', fs1), some e)
      | .ok fs2 => ((lv', fs2), none)

/-- The `MergeOutcome::Complete` arm of `Level::merge` (the `match count`
dispatch plus the final merge-propagation command). -/
def LevelM.mergeComplete (lv : LevelM) (fs : FS) (count completed workIncludingHere : Nat)
    (xFile : List Nat) : (LevelM × FS) × Except Err (List Command) :=
  let fs := fsInsert fs (lv.dataFile .lx) xFile
  let next : (LevelM × FS) × Except Err (List Command) :=
    if count = 0 then
      match lv.closeAndDeleteAB fs with
      | (st, some e) => (st, .error e)
      | ((lv1, fs1), none) =>
        match lv1.c with
        | none => ((lv1, fs1), .ok [])
        | some _cT =>
          match fsRename fs1 (lv1.dataFile .lc) (lv1.dataFile .la) with
          | .error e => (({ lv1 with c := none }, fs1), .error e)
          | .ok fs2 =>
            match Tree.fromFile ((fsLookup fs2 (lv1.dataFile .la)).getD []) with
            | .error e => (({ lv1 with c := none }, fs2), .error e)
            | .ok aT => (({ lv1 with a := some aT, c := none }, fs2), .ok [])
    else if count ≤ levelSize lv.level then
      match fsRename fs (lv.dataFile .lx) (lv.dataFile .lm) with
      | .error e => ((lv, fs), .error e)
      | .ok fsm =>
        match lv.closeAndDeleteAB fsm with
        | (st, some e) => (st, .error e)
        | ((lv1, fs1), none) =>
          match fsRename fs1 (lv1.dataFile .lm) (lv1.dataFile .la) with
          | .error e => ((lv1, fs1), .error e)
          | .ok fs2 =>
            match Tree.fromFile ((fsLookup fs2 (lv1.dataFile .la)).getD []) with
            | .error e => ((lv1, fs2), .error e)
            | .ok aT =>
              let lv2 := { lv1 with a := some aT }
              match lv2.c with
              | none => ((lv2, fs2), .ok [])
              | some _cT =>
                match fsRename fs2 (lv2.dataFile .lc) (lv2.dataFile .lb) with
                | .error e => (({ lv2 with c := none }, fs2), .error e)
                | .ok fs3 =>
                  match Tree.fromFile ((fsLookup fs3 (lv2.dataFile .lb)).getD []) with
                  | .error e => (({ lv2 with c := none }, fs3), .error e)
                  | .ok bT => (({ lv2 with b := some bT, c := none }, fs3), .ok [])
    else
      match lv.closeAndDeleteAB fs with
      | (st, some e) => (st, .error e)
      | ((lv1, fs1), none) =>
        ((lv1, fs1), .ok [Command.promoteFile (lv1.dataFile .lx) (lv1.level + 1)])
  match next with
  | (st, .error e) => (st, .error e)
  | (st, .ok cmds) =>
    (st, .ok (cmds ++ [Command.mergeCmd (workIncludingHere - completed) (st.1.level + 1)]))

/-- `Level::merge`.  The merger is `take`n from the level; when the computed
step budget is zero the call returns an empty command list without restoring
it.  `work_units_left` uses `usize::saturating_sub`, which is `Nat`
subtraction. -/
def LevelM.merge (lv0 : LevelM) (fs0 : FS) (workCompleted workUnit minLevel maxLevel fuel : Nat) :
    (LevelM × FS) × Except Err (List Command) :=
  match lv0.maybeCreateMerger fs0 fuel with
  | (st, some e) => (st, .error e)
  | ((lvc, fsc), none) =>
    match lvc.merger with
    | some merger =>
      let lv := { lvc with merger := none }
      let workLeftHere := levelSize lv.level * 2
      let depth := maxLevel - minLevel + 1
      let workUnitsLeft := depth * workUnit - workCompleted
      let steps := min workUnitsLeft workLeftHere
      let workIncludingHere := steps + workCompleted
      if steps = 0 then ((lv, fsc), .ok [])
      else
        match merger.incrementalMerge fuel steps with
        | .error e => ((lv, fsc), .error e)
        | .ok (.cont newMerger) =>
          (({ lv with merger := some newMerger }, fsc),
           .ok [Command.mergeCmd workIncludingHere (lv.level + 1)])
        | .ok (.complete count completed xFile) =>
          lv.mergeComplete fsc count completed workIncludingHere xFile
    | none =>
      if lvc.level < maxLevel then
        ((lvc, fsc), .ok [Command.mergeCmd workCompleted (lvc.level + 1)])
      else ((lvc, fsc), .ok [])

/-- `Level::get_entry`: consult `C`, then `B`, then `A`, returning the first
present entry. -/
def levelGetGo (fuel : Nat) (key : List Nat) : List (Option TreeM) → Except Err (Option Entry)
  | [] => .ok none
  | none :: rest => levelGetGo fuel key rest
  | some t :: rest =>
    match t.getEntry fuel key with
    | .error e => .error e
    | .ok (some e) => .ok (some e)
    | .ok none => levelGetGo fuel key rest

def LevelM.getEntry (lv : LevelM) (fuel : Nat) (key : List Nat) : Except Err (Option Entry) :=
  levelGetGo fuel key [lv.c, lv.b, lv.a]

/-! ## Nursery (from `src/nursery.rs`, write path).

The `BTreeMap<Vec<u8>, Value>` is modelled as an association list sorted by
`cmpBytes`; insertion replaces an equal key.  `Nursery::write_internal`
performs two fallible I/O operations on the log (`write_all`, then
`sync_data`); their outcomes are the `writeOk`/`syncOk` oracle parameters.
The flush branch writes `nursery.data` through a `Writer`; the resulting file
bytes are recorded in `dataFileBytes` (the directory bookkeeping of
`with_expected_num_items`' `create_new` is not modelled here — the nursery
claims under verification do not depend on it). -/

inductive NValue where
  | plain (v : List Nat)
  | deletedV
deriving DecidableEq

def mapInsert : List (List Nat × NValue) → List Nat → NValue → List (List Nat × NValue)
  | [], k, v => [(k, v)]
  | (k', v') :: rest, k, v =>
    match cmpBytes k k' with
    | .lt => (k, v) :: (k', v') :: rest
    | .eq => (k, v) :: rest
    | .gt => (k', v') :: mapInsert rest k v

def mapGet (m : List (List Nat × NValue)) (k : List Nat) : Option NValue :=
  match m.find? (fun p => p.1 == k) with
  | some p => some p.2
  | none => none

structure Nursery where
  logBytes : List Nat
  data : List (List Nat × NValue)
  minLevel : Nat
  totalSize : Nat
  step : Nat
  dataFileBytes : Option (List Nat)
deriving DecidableEq

/-- The entries a nursery flush feeds to its `Writer`, in map order:
`Value::Plain(v)` becomes `Entry::KeyVal` and `Value::Deleted` becomes
`Entry::Deleted`, both without timestamp. -/
def nurseryFlushEntries (data : List (List Nat × NValue)) : List Entry :=
  data.map (fun p =>
    match p.2 with
    | .plain v => Entry.keyVal p.1 v none
    | .deletedV => Entry.deleted p.1 none)

/-- `Nursery::write_internal`.  Note the order in the source: the in-memory
map is updated first (`self.data.insert(key, value)`), then the log write and
sync happen; an I/O failure there returns the error with the map already
mutated. -/
def Nursery.writeInternal (n : Nursery) (key : List Nat) (value : NValue)
    (binEntry : List Nat) (writeOk syncOk : Bool) (fuel : Nat) :
    Nursery × Except Err (List Command) :=
  let n1 := { n with data := mapInsert n.data key value }
  if !writeOk then (n1, .error .ioErr)
  else
    let n2 := { n1 with logBytes := n1.logBytes ++ binEntry }
    if !syncOk then (n2, .error .ioErr)
    else
      let n3 := { n2 with totalSize := n2.totalSize + binEntry.length }
      let minLevelSize := 2 ^ n3.minLevel
      let flushed : Nursery × Except Err (List Command) :=
        if n3.data.length ≥ minLevelSize then
          let w0 := Writer.withExpectedNumItems minLevelSize
          let taken := { n3 with data := [] }
          match Writer.runAdds fuel w0 (nurseryFlushEntries n3.data) with
          | (_, some e) => (taken, .error e)
          | (w1, none) =>
            match Writer.close fuel w1 with
            | (_, some e) => (taken, .error e)
            | (wc, none) =>
              ({ taken with dataFileBytes := some wc.fileBytes, logBytes := [] },
               .ok [Command.promoteFile .nurseryData n3.minLevel])
        else (n3, .ok [])
      match flushed with
      | (n4, .error e) => (n4, .error e)
      | (n4, .ok commands) =>
        let minStepsToMerge := minLevelSize / 2
        if n4.step + 1 ≥ minStepsToMerge then
          ({ n4 with step := 0 },
           .ok (commands ++ [Command.mergeCmd (n4.step + 1) n4.minLevel]))
        else ({ n4 with step := n4.step + 1 }, .ok commands)

/-- `Nursery::add`. -/
def Nursery.add (n : Nursery) (key value : List Nat) (writeOk syncOk : Bool) (fuel : Nat) :
    Nursery × Except Err (List Command) :=
  let binEntry := (Entry.keyVal key value none).encode
  n.writeInternal key (.plain value) binEntry writeOk syncOk fuel

/-- `Nursery::delete`. -/
def Nursery.delete (n : Nursery) (key : List Nat) (writeOk syncOk : Bool) (fuel : Nat) :
    Nursery × Except Err (List Command) :=
  let binEntry := (Entry.deleted key none).encode
  n.writeInternal key .deletedV binEntry writeOk syncOk fuel

/-! ## Database point read (from `src/db.rs`) -/

/-- The per-level loop of `HanoiDB::get`; the `PosLen` arm is the
`unreachable!("get entry returned a poslen entry")` panic, modelled as
`Err.crash`. -/
def dbLevelsGet (fuel : Nat) (key : List Nat) : List LevelM → Except Err (Option (List Nat))
  | [] => .ok none
  | lv :: rest =>
    match lv.getEntry fuel key with
    | .error e => .error e
    | .ok (some (.deleted _ _)) => .ok none
    | .ok (some (.keyVal _ v _)) => .ok (some v)
    | .ok (some (.posLen _ _ _)) => .error .crash
    | .ok none => dbLevelsGet fuel key rest

/-- `HanoiDB::get`: nursery map first, then the levels in ascending order. -/
def dbGet (nurseryData : List (List Nat × NValue)) (levels : List LevelM)
    (fuel : Nat) (key : List Nat) : Except Err (Option (List Nat)) :=
  match mapGet nurseryData key with
  | some .deletedV => .ok none
  | some (.plain v) => .ok (some v)
  | none => dbLevelsGet fuel key levels

/-! ## Concrete instances used by the claim theorems.

The kernel cannot feasibly evaluate an 8 KiB file, so the demonstrations of
the block-pointer defect use miniature trees: the leaf flushes that
`append_to_block` performs automatically once a block's size reaches
`BLOCK_SIZE` are invoked directly (`flushBlockBuffer` is exactly the code that
runs at the threshold), producing the same multi-block layout a large input
produces, at a size the kernel can evaluate. -/

def w1024 : Writer := Writer.withExpectedNumItems 1024

/-- C3 data: two `add`s with the same key `[97]`. -/
def c3run : Writer × Option Err :=
  Writer.runAdds 40 w1024 [Entry.keyVal [97] [1] none, Entry.keyVal [97] [2] none]

def sampleKv : Entry := Entry.keyVal [97] [118, 49] none

def sampleDel : Entry := Entry.deleted [98] none

/-- C1/C2 data: a two-leaf tree with an internal root, built by `add`,
the writer's own flush, and `close`. -/
def c12s1 : Writer × Option Err := Writer.add 40 w1024 sampleKv
def c12s2 : Writer × Option Err := Writer.flushBlockBuffer 20 c12s1.1
def c12s3 : Writer × Option Err := Writer.add 40 c12s2.1 sampleDel
def c12s4 : Writer × Option Err := Writer.flushBlockBuffer 20 c12s3.1
def c12s5 : Writer × Option Err := Writer.flushBlockBuffer 20 c12s4.1
def c12file : List Nat := (Writer.close 10 c12s5.1).1.fileBytes

/-- C5 data: `A` is a small single-leaf file holding the old value for key
`[97]`; `B` is a two-leaf file with an internal root whose first leaf holds
the new value for `[97]`. -/
def c5aOld : Entry := Entry.keyVal [97] [97, 95, 111, 108, 100] none
def c5aNew : Entry := Entry.keyVal [97] [97, 95, 110, 101, 119] none
def c5fileA : List Nat := (Writer.close 10 (Writer.runAdds 40 w1024 [c5aOld]).1).1.fileBytes
def c5b1 : Writer × Option Err := Writer.add 40 w1024 c5aNew
def c5b2 : Writer × Option Err := Writer.flushBlockBuffer 20 c5b1.1
def c5b3 : Writer × Option Err := Writer.add 40 c5b2.1 (Entry.keyVal [98] [7] none)
def c5b4 : Writer × Option Err := Writer.flushBlockBuffer 20 c5b3.1
def c5b5 : Writer × Option Err := Writer.flushBlockBuffer 20 c5b4.1
def c5fileB : List Nat := (Writer.close 10 c5b5.1).1.fileBytes

/-- The merge of the C5 files (`A` older, `B` newer), run to completion. -/
def c5merge : Except Err MergeOutcome :=
  match Tree.fromFile c5fileA, Tree.fromFile c5fileB with
  | .ok tA, .ok tB =>
    match Merger.new [] 10 tA tB 20 with
    | .ok (m, _) => m.incrementalMerge 40 512
    | .error e => .error e
  | _, _ => .error .crash

/-- C9 data: `A` is a two-leaf file with an internal root whose first leaf
holds a tombstone for key `[97]`; `B` is a small single-leaf file. -/
def c9tomb : Entry := Entry.deleted [97] none
def c9a1 : Writer × Option Err := Writer.add 40 w1024 c9tomb
def c9a2 : Writer × Option Err := Writer.flushBlockBuffer 20 c9a1.1
def c9a3 : Writer × Option Err := Writer.add 40 c9a2.1 (Entry.keyVal [98] [7] none)
def c9a4 : Writer × Option Err := Writer.flushBlockBuffer 20 c9a3.1
def c9a5 : Writer × Option Err := Writer.flushBlockBuffer 20 c9a4.1
def c9fileA : List Nat := (Writer.close 10 c9a5.1).1.fileBytes
def c9fileB : List Nat :=
  (Writer.close 10 (Writer.runAdds 40 w1024 [Entry.keyVal [99] [9] none]).1).1.fileBytes

/-- The merge of the C9 files, run to completion. -/
def c9merge : Except Err MergeOutcome :=
  match Tree.fromFile c9fileA, Tree.fromFile c9fileB with
  | .ok tA, .ok tB =>
    match Merger.new [] 10 tA tB 20 with
    | .ok (m, _) => m.incrementalMerge 40 512
    | .error e => .error e
  | _, _ => .error .crash

/-- C6 data: a fresh nursery (minimum level 10). -/
def c6nursery : Nursery := ⟨[], [], 10, 0, 0, none⟩

/-- C7 data: a writer closed without any `add`. -/
def c7closed : Writer × Option Err := Writer.close 10 w1024

/-- C8 data: an empty tree file, a level at 10 holding it as both `A` and `B`
with an in-progress merger, and a directory in which the partially written
`X-10.data` exists. -/
def c8tree : TreeM := ⟨(Writer.close 10 w1024).1.fileBytes, ⟨Bloom.withFalsePos001 1024, 4⟩⟩
def c8merger : MergerM := ⟨[], [], Writer.withExpectedNumItems 2048⟩
def c8level : LevelM := ⟨10, some c8tree, some c8tree, none, some c8merger⟩
def c8fs : FS := [(FileName.levelFile .lx 10, magicBytes)]

/-- The bytes of the C1/C2 file: leaf `[sampleKv]` at 4, leaf `[sampleDel]`
at 29, internal root with two `PosLen` entries at 48, then the trailer. -/
def c12bytes : List Nat :=
  [72, 65, 78, 51, 0, 0, 0, 21, 0, 0, 0, 255, 0, 0, 0, 8, 239, 11, 66, 139, 128, 0, 0, 0, 1,
   97, 118, 49, 255, 0, 0, 0, 15, 0, 0, 0, 255, 0, 0, 0, 2, 192, 253, 187, 129, 129, 98, 255,
   0, 0, 0, 50, 0, 1, 0, 255, 0, 0, 0, 14, 37, 55, 167, 68, 130, 0, 0, 0, 0, 0, 0, 0, 4,
   0, 0, 0, 21, 97, 255, 0, 0, 0, 14, 40, 202, 95, 118, 130, 0, 0, 0, 0, 0, 0, 0, 29,
   0, 0, 0, 15, 98, 255, 0, 0, 0, 0, 1, 100, 1024, 2, 1, 98, 1, 97, 0, 0, 0, 8,
   0, 0, 0, 0, 0, 0, 0, 48]

/-- The bytes of the C5 `A` file (single leaf holding `c5aOld`). -/
def c5fileAbytes : List Nat :=
  [72, 65, 78, 51, 0, 0, 0, 24, 0, 0, 0, 255, 0, 0, 0, 11, 142, 153, 31, 198, 128, 0, 0, 0, 1,
   97, 97, 95, 111, 108, 100, 255, 0, 0, 0, 0, 1, 100, 1024, 1, 1, 97, 0, 0, 0, 6,
   0, 0, 0, 0, 0, 0, 0, 4]

/-- The bytes of the C5 `B` file (leaf `[c5aNew]` at 4, leaf `[98 ↦ 7]` at 32,
internal root at 56). -/
def c5fileBbytes : List Nat :=
  [72, 65, 78, 51, 0, 0, 0, 24, 0, 0, 0, 255, 0, 0, 0, 11, 218, 39, 143, 102, 128, 0, 0, 0, 1,
   97, 97, 95, 110, 101, 119, 255, 0, 0, 0, 20, 0, 0, 0, 255, 0, 0, 0, 7, 221, 23, 195, 61,
   128, 0, 0, 0, 1, 98, 7, 255, 0, 0, 0, 50, 0, 1, 0, 255, 0, 0, 0, 14, 144, 153, 217, 9, 130,
   0, 0, 0, 0, 0, 0, 0, 4, 0, 0, 0, 24, 97, 255, 0, 0, 0, 14, 57, 24, 128, 159, 130, 0, 0, 0,
   0, 0, 0, 0, 32, 0, 0, 0, 20, 98, 255, 0, 0, 0, 0, 1, 100, 1024, 2, 1, 98, 1, 97, 0, 0, 0, 8,
   0, 0, 0, 0, 0, 0, 0, 56]

/-- The parsed C5 trees. -/
def c5treeA : TreeM := ⟨c5fileAbytes, ⟨⟨1, 100, 1024, [[97]]⟩, 4⟩⟩
def c5treeB : TreeM := ⟨c5fileBbytes, ⟨⟨1, 100, 1024, [[98], [97]]⟩, 56⟩⟩

/-- The merger state `Merger::new` builds for the C5 trees: `A`'s single
entry, nothing at all from `B` (its iteration dies on the `PosLen` descent),
and a fresh `X` writer. -/
def c5merger0 : MergerM := ⟨[c5aOld], [], Writer.withExpectedNumItems 2048⟩

/-- The directory after `Merger::new` created `X-10.data`. -/
def xFs10 : FS := [(FileName.levelFile .lx 10, [72, 65, 78, 51])]

/-- The bytes of the completed C5 merge output `X`: it holds `c5aOld` only. -/
def c5xbytes : List Nat :=
  [72, 65, 78, 51, 0, 0, 0, 24, 0, 0, 0, 255, 0, 0, 0, 11, 142, 153, 31, 198, 128, 0, 0, 0, 1,
   97, 97, 95, 111, 108, 100, 255, 0, 0, 0, 0, 1, 100, 2048, 1, 1, 97, 0, 0, 0, 6,
   0, 0, 0, 0, 0, 0, 0, 4]

/-- The bytes of the C9 `A` file (leaf `[c9tomb]` at 4, leaf `[98 ↦ 7]` at 23,
internal root at 47). -/
def c9fileAbytes : List Nat :=
  [72, 65, 78, 51, 0, 0, 0, 15, 0, 0, 0, 255, 0, 0, 0, 2, 89, 244, 234, 59, 129, 97, 255,
   0, 0, 0, 20, 0, 0, 0, 255, 0, 0, 0, 7, 221, 23, 195, 61, 128, 0, 0, 0, 1, 98, 7, 255,
   0, 0, 0, 50, 0, 1, 0, 255, 0, 0, 0, 14, 149, 26, 93, 159, 130, 0, 0, 0, 0, 0, 0, 0, 4,
   0, 0, 0, 15, 97, 255, 0, 0, 0, 14, 32, 103, 183, 138, 130, 0, 0, 0, 0, 0, 0, 0, 23,
   0, 0, 0, 20, 98, 255, 0, 0, 0, 0, 1, 100, 1024, 2, 1, 98, 1, 97, 0, 0, 0, 8,
   0, 0, 0, 0, 0, 0, 0, 47]

/-- The bytes of the C9 `B` file (single leaf holding `[99] ↦ [9]`). -/
def c9fileBbytes : List Nat :=
  [72, 65, 78, 51, 0, 0, 0, 20, 0, 0, 0, 255, 0, 0, 0, 7, 35, 180, 223, 123, 128, 0, 0, 0, 1,
   99, 9, 255, 0, 0, 0, 0, 1, 100, 1024, 1, 1, 99, 0, 0, 0, 6, 0, 0, 0, 0, 0, 0, 0, 4]

/-- The parsed C9 trees. -/
def c9treeA : TreeM := ⟨c9fileAbytes, ⟨⟨1, 100, 1024, [[98], [97]]⟩, 47⟩⟩
def c9treeB : TreeM := ⟨c9fileBbytes, ⟨⟨1, 100, 1024, [[99]]⟩, 4⟩⟩

/-- The merger state `Merger::new` builds for the C9 trees: nothing from `A`
(its iteration dies on the `PosLen` descent, dropping the tombstone), `B`'s
single entry, and a fresh `X` writer. -/
def c9merger0 : MergerM := ⟨[], [Entry.keyVal [99] [9] none], Writer.withExpectedNumItems 2048⟩

/-- The bytes of the completed C9 merge output `X`: it holds `[99] ↦ [9]`
only. -/
def c9xbytes : List Nat :=
  [72, 65, 78, 51, 0, 0, 0, 20, 0, 0, 0, 255, 0, 0, 0, 7, 35, 180, 223, 123, 128, 0, 0, 0, 1,
   99, 9, 255, 0, 0, 0, 0, 1, 100, 2048, 1, 1, 99, 0, 0, 0, 6, 0, 0, 0, 0, 0, 0, 0, 4]

/-- The parsed C1/C2 tree (used by the C10 instances). -/
def c12tree : TreeM := ⟨c12bytes, ⟨⟨1, 100, 1024, [[98], [97]]⟩, 48⟩⟩

/-- A pending block holds no `PosLen` entries if it sits at level 0. -/
def WBlockPure (blk : WBlock) : Prop :=
  blk.level = 0 → ∀ e ∈ blk.members, e.isPosLen = false

/-- The pending-block stack of a writer is strictly descending in level
(outermost block first, the level-0 leaf last). -/
def BlocksDesc (blocks : List WBlock) : Prop :=
  blocks.Chain' (fun b1 b2 => b2.level < b1.level)

/-- The writer invariant behind claim C10: a descending pending stack whose
leaf blocks contain only `KeyVal` and `Deleted` entries. -/
def WriterInv (w : Writer) : Prop :=
  BlocksDesc w.blocks ∧ ∀ blk ∈ w.blocks, WBlockPure blk

/-! ## Lemmas: big-endian round trips and CRC bounds -/

theorem beToNat_be16 (n : Nat) : beToNat (be16 n) = n % 65536 := by
  simp only [be16, beToNat, List.foldl]
  omega

theorem beToNat_be32 (n : Nat) : beToNat (be32 n) = n % 4294967296 := by
  simp only [be32, beToNat, List.foldl]
  omega

theorem beToNat_be64 (n : Nat) : beToNat (be64 n) = n % 18446744073709551616 := by
  simp only [be64, beToNat, List.foldl]
  omega

theorem be16_length (n : Nat) : (be16 n).length = 2 := rfl

theorem be32_length (n : Nat) : (be32 n).length = 4 := rfl

theorem be64_length (n : Nat) : (be64 n).length = 8 := rfl

theorem crcStep_lt (c : Nat) (h : c < 4294967296) : crcStep c < 4294967296 := by
  unfold crcStep
  split
  · exact Nat.xor_lt_two_pow (n := 32) (by omega) (by norm_num)
  · omega

theorem crcByte_lt (c b : Nat) (h : c < 4294967296) : crcByte c b < 4294967296 := by
  unfold crcByte
  have h0 : Nat.xor c (b % 256) < 4294967296 :=
    Nat.xor_lt_two_pow (n := 32) (by omega) (by have := Nat.mod_lt b (y := 256) (by norm_num); omega)
  exact crcStep_lt _ (crcStep_lt _ (crcStep_lt _ (crcStep_lt _ (crcStep_lt _ (crcStep_lt _
    (crcStep_lt _ (crcStep_lt _ h0)))))))

theorem crcFold_lt (l : List Nat) : ∀ c, c < 4294967296 →
    l.foldl (fun c b => crcByte c b) c < 4294967296 := by
  induction l with
  | nil => intro c h; simpa using h
  | cons x xs ih =>
    intro c h
    simpa using ih (crcByte c x) (crcByte_lt c x h)

theorem crc32_lt (l : List Nat) : crc32 l < 4294967296 := by
  unfold crc32
  exact Nat.xor_lt_two_pow (n := 32) (crcFold_lt l 0xFFFFFFFF (by norm_num)) (by norm_num)

/-! ## Lemmas: entry codec round trip -/

theorem Entry.body_length (e : Entry) : e.body.length = e.encodedSize - 9 := by
  cases e with
  | keyVal k v ts =>
    cases ts <;> simp [Entry.body, Entry.encodedSize, be32_length] <;> omega
  | deleted k ts =>
    cases ts <;> simp [Entry.body, Entry.encodedSize, be32_length] <;> omega
  | posLen p l k =>
    simp [Entry.body, Entry.encodedSize, be64_length, be32_length]
    omega

theorem Entry.encodedSize_ge_10 (e : Entry) : 10 ≤ e.encodedSize := by
  cases e with
  | keyVal k v ts => simp [Entry.encodedSize]; omega
  | deleted k ts => simp [Entry.encodedSize]; omega
  | posLen p l k => simp [Entry.encodedSize]; omega

theorem Entry.encode_length (e : Entry) : e.encode.length = e.encodedSize := by
  have h9 := e.encodedSize_ge_10
  simp [Entry.encode, be32_length, Entry.body_length]
  omega

theorem Entry.isPosLen_trunc (e : Entry) : e.trunc.isPosLen = e.isPosLen := by
  cases e <;> rfl

theorem Entry.key_trunc (e : Entry) : e.trunc.key = e.key := by
  cases e <;> rfl

theorem dropThrough {l₁ : List Nat} (l₂ : List Nat) {m : Nat} (n : Nat) (h : l₁.length = m) :
    (l₁ ++ l₂).drop (m + n) = l₂.drop n := by
  subst h; exact List.drop_append n

/-- Decoding the bytes produced by `Entry::encode` recovers the entry up to
the numeric-width truncations, consuming exactly `encoded_size` bytes.  The
single hypothesis is that the `tag+body` length fits the `u32` length field
(the encoder casts it `as u32`). -/
theorem Entry.read_encode_trunc (e : Entry) (rest : List Nat)
    (h : e.encodedSize - 9 < 4294967296) :
    Entry.read (e.encode ++ rest) = .ok (e.trunc, e.encodedSize) := by
  have hcrc := crc32_lt e.body
  have hbody := e.body_length
  have h10 := e.encodedSize_ge_10
  have hE : e.encode ++ rest =
      (be32 (e.encodedSize - 9) ++ be32 (crc32 e.body)) ++ (e.body ++ (TAG_END :: rest)) := by
    simp [Entry.encode, List.append_assoc]
  rw [hE]
  have hhdr : (be32 (e.encodedSize - 9) ++ be32 (crc32 e.body)).length = 8 := by
    simp [be32_length]
  have hbe1 : (be32 (e.encodedSize - 9)).length = 4 := be32_length _
  simp only [Entry.read, List.length_append, hhdr, hbody]
  rw [List.take_left' hhdr, List.drop_left' hhdr]
  simp only [List.take_left' hbe1, List.drop_left' hbe1, beToNat_be32,
    Nat.mod_eq_of_lt h, Nat.mod_eq_of_lt hcrc]
  rw [if_neg (by omega)]
  rw [if_neg (by simp [hbody])]
  rw [List.take_left' hbody, List.drop_left' hbody]
  rw [if_neg (by simp)]
  cases e with
  | keyVal k v ts =>
    have hk : k.length < 4294967296 := by
      simp only [Entry.encodedSize] at h; cases ts <;> simp at h <;> omega
    cases ts with
    | none =>
      have hb : (Entry.keyVal k v none).body = TAG_KV_DATA :: (be32 k.length ++ (k ++ v)) := by
        simp [Entry.body, List.append_assoc]
      rw [hb]
      simp only [List.length_cons, List.length_append, be32_length, List.drop_succ_cons,
        List.drop_zero, List.take_left' (be32_length k.length),
        dropThrough (m := 4) (k ++ v) 0 (be32_length k.length)]
      simp [TAG_KV_DATA, TAG_DELETED, TAG_KV_DATA2, TAG_DELETED2, TAG_POSLEN32, TAG_END,
        Entry.encodedSize, Entry.trunc, beToNat_be32, Nat.mod_eq_of_lt hk,
        List.take_left, List.drop_left]
      rw [if_neg (by omega)]
    | some ts =>
      have hb : (Entry.keyVal k v (some ts)).body =
          TAG_KV_DATA2 :: (be32 ts ++ (be32 k.length ++ (k ++ v))) := by
        simp [Entry.body, List.append_assoc]
      rw [hb]
      simp only [List.length_cons, List.length_append, be32_length, List.drop_succ_cons,
        List.drop_zero, List.take_left' (be32_length ts),
        dropThrough (m := 4) (be32 k.length ++ (k ++ v)) 0 (be32_length ts),
        dropThrough (m := 4) (be32 k.length ++ (k ++ v)) 4 (be32_length ts),
        List.take_left' (be32_length k.length),
        dropThrough (m := 4) (k ++ v) 0 (be32_length k.length)]
      simp [TAG_KV_DATA, TAG_DELETED, TAG_KV_DATA2, TAG_DELETED2, TAG_POSLEN32, TAG_END,
        Entry.encodedSize, Entry.trunc, beToNat_be32, Nat.mod_eq_of_lt hk,
        List.take_left, List.drop_left]
      rw [if_neg (by omega)]
  | deleted k ts =>
    cases ts with
    | none =>
      have hb : (Entry.deleted k none).body = TAG_DELETED :: k := by simp [Entry.body]
      rw [hb]
      simp [TAG_KV_DATA, TAG_DELETED, TAG_KV_DATA2, TAG_DELETED2, TAG_POSLEN32, TAG_END,
        Entry.encodedSize, Entry.trunc]
    | some ts =>
      have hb : (Entry.deleted k (some ts)).body = TAG_DELETED2 :: (be32 ts ++ k) := by
        simp [Entry.body]
      rw [hb]
      simp only [List.length_cons, List.length_append, be32_length, List.drop_succ_cons,
        List.drop_zero, List.take_left' (be32_length ts),
        dropThrough (m := 4) k 0 (be32_length ts)]
      simp [TAG_KV_DATA, TAG_DELETED, TAG_KV_DATA2, TAG_DELETED2, TAG_POSLEN32, TAG_END,
        Entry.encodedSize, Entry.trunc, beToNat_be32]
      rw [if_neg (by omega)]
  | posLen p l k =>
    have hb : (Entry.posLen p l k).body = TAG_POSLEN32 :: (be64 p ++ (be32 l ++ k)) := by
      simp [Entry.body, List.append_assoc]
    rw [hb]
    simp only [List.length_cons, List.length_append, be64_length, be32_length,
      List.drop_succ_cons, List.drop_zero, List.take_left' (be64_length p),
      dropThrough (m := 8) (be32 l ++ k) 0 (be64_length p),
      dropThrough (m := 8) (be32 l ++ k) 4 (be64_length p),
      List.take_left' (be32_length l), dropThrough (m := 4) k 0 (be32_length l)]
    simp [TAG_KV_DATA, TAG_DELETED, TAG_KV_DATA2, TAG_DELETED2, TAG_POSLEN32, TAG_END,
      Entry.encodedSize, Entry.trunc, beToNat_be32, beToNat_be64]
    rw [if_neg (by omega)]

theorem Entry.trunc_eq_of_valid (e : Entry) (h : e.Valid) : e.trunc = e := by
  obtain ⟨h1, h2⟩ := h
  cases e with
  | keyVal k v ts =>
    cases ts with
    | none => rfl
    | some t => simp only [Entry.Valid] at h2; simp [Entry.trunc, Nat.mod_eq_of_lt h2]
  | deleted k ts =>
    cases ts with
    | none => rfl
    | some t => simp only [Entry.Valid] at h2; simp [Entry.trunc, Nat.mod_eq_of_lt h2]
  | posLen p l k =>
    simp only [Entry.Valid] at h2
    simp [Entry.trunc, Nat.mod_eq_of_lt h2.1, Nat.mod_eq_of_lt h2.2]

/-! ## Claim C4 -/

/-- C4: for every valid `Entry` `e` (`KeyVal` with or without timestamp,
`Deleted` with or without timestamp, `PosLen`), decoding the byte string
produced by `Entry::encode` — i.e. `Entry::read` over those bytes — succeeds
and returns an entry equal to `e`, consuming exactly `e.encoded_size()`
bytes. -/
theorem claimC4_entry_roundtrip (e : Entry) (rest : List Nat) (h : e.Valid) :
    Entry.read (e.encode ++ rest) = .ok (e, e.encodedSize) := by
  rw [Entry.read_encode_trunc e rest h.1, Entry.trunc_eq_of_valid e h]

theorem claimC4_witness :
    (Entry.keyVal [1] [2] (some 7)).Valid ∧
    Entry.read ((Entry.keyVal [1] [2] (some 7)).encode ++ [9, 9]) =
      .ok (Entry.keyVal [1] [2] (some 7), 20) := by
  have hv : (Entry.keyVal [1] [2] (some 7)).Valid := by
    constructor
    · norm_num [Entry.encodedSize]
    · norm_num [Entry.Valid]
  refine ⟨hv, ?_⟩
  have h := claimC4_entry_roundtrip (Entry.keyVal [1] [2] (some 7)) [9, 9] hv
  simpa [Entry.encodedSize] using h

/-! ## Claim C3 -/

/-- C3 (counterexample): the claim states that `Writer::add` fails with
`OutOfOrderWrite` whenever the new key is less than **or equal to** the
previous key in the current leaf block.  Adding the key `[97]` twice
succeeds both times, and both entries end up in the leaf block: the order
check in `append_to_block` only rejects keys strictly below the previous
one (`last_entry.key() > entry.key()`). -/
theorem claimC3_counterexample :
    c3run.2 = none ∧
    c3run.1.blocks =
      [⟨0, 32, [Entry.keyVal [97] [1] none, Entry.keyVal [97] [2] none]⟩] := by
  constructor <;> rfl

/-- Frame lemma: when the pending stack's last block already sits at level 0,
`get_block_at_level 0` returns the stack unchanged. -/
theorem getBlockAtLevel_of_level0 (blocks : List WBlock) (blk : WBlock)
    (h1 : blocks.getLast? = some blk) (h2 : blk.level = 0) :
    Writer.getBlockAtLevel blocks 0 = blocks := by
  unfold Writer.getBlockAtLevel
  rw [h1]
  show blocks ++ padLevels blk.level 0 = blocks
  rw [h2]
  simp [padLevels]

/-- C3 (amended): `Writer::add(entry)` fails with `OutOfOrderWrite` exactly
when `entry.key` is **strictly less** than the key of the previous entry in
the current leaf block, and succeeds when it is greater **or equal**; on
failure nothing is appended to the block.  (Stated for adds that do not reach
the 8 KiB flush threshold; the flush path is disjoint from the order check.) -/
theorem claimC3_amended (w : Writer) (e : Entry) (fuel : Nat) (blk : WBlock) (prev : Entry)
    (h1 : w.blocks.getLast? = some blk) (h2 : blk.level = 0)
    (h3 : blk.members.getLast? = some prev)
    (h4 : blk.size + e.encodedSize < BLOCK_SIZE) :
    ((Writer.add (fuel + 1) w e).2 = some Err.outOfOrderWrite ↔
      cmpBytes prev.key e.key = Ordering.gt) ∧
    (cmpBytes prev.key e.key = Ordering.gt → (Writer.add (fuel + 1) w e).1.blocks = w.blocks) ∧
    (cmpBytes prev.key e.key ≠ Ordering.gt →
      (Writer.add (fuel + 1) w e).2 = none ∧
      (Writer.add (fuel + 1) w e).1.blocks.getLast? =
        some { blk with size := blk.size + e.encodedSize, members := blk.members ++ [e] }) := by
  have hb1 : (if e.isPosLen then w else { w with bloom := w.bloom.insert e.key }).blocks
      = w.blocks := by split <;> rfl
  have hG : Writer.getBlockAtLevel
      (if e.isPosLen then w else { w with bloom := w.bloom.insert e.key }).blocks 0 = w.blocks := by
    rw [hb1]; exact getBlockAtLevel_of_level0 w.blocks blk h1 h2
  have hlast : w.blocks.getLast! = blk := List.getLast!_of_getLast? h1
  by_cases hc : cmpBytes prev.key e.key = Ordering.gt
  · have hred : Writer.add (fuel + 1) w e =
        ({ (if e.isPosLen then w else { w with bloom := w.bloom.insert e.key }) with
            blocks := w.blocks }, some Err.outOfOrderWrite) := by
      show Writer.appendToBlock (fuel + 1)
        (if e.isPosLen then w else { w with bloom := w.bloom.insert e.key }) 0 e = _
      rw [Writer.appendToBlock]
      simp only [hG, hlast, h3, hc]
      rfl
    rw [hred]
    refine ⟨by simp [hc], fun _ => rfl, fun hn => absurd hc hn⟩
  · have hne : (cmpBytes prev.key e.key == Ordering.gt) = false := by
      cases hcv : cmpBytes prev.key e.key <;> simp_all <;> rfl
    have hred : Writer.add (fuel + 1) w e =
        ({ (if e.isPosLen then w else { w with bloom := w.bloom.insert e.key }) with
            blocks := w.blocks.dropLast ++
              [{ blk with size := blk.size + e.encodedSize, members := blk.members ++ [e] }]
            tombstoneCount := w.tombstoneCount + (if e.isDeleted then 1 else 0)
            valueCount := w.valueCount + (if e.isKeyVal then 1 else 0) }, none) := by
      show Writer.appendToBlock (fuel + 1)
        (if e.isPosLen then w else { w with bloom := w.bloom.insert e.key }) 0 e = _
      rw [Writer.appendToBlock]
      simp only [hG, hlast, h3, hne, Bool.false_eq_true, if_false]
      rw [if_neg (by simpa [BLOCK_SIZE] using h4)]
      split <;> rfl
    rw [hred]
    refine ⟨by simp [hc], fun hgt => absurd hgt hc, fun _ => ⟨rfl, ?_⟩⟩
    simp [List.getLast?_concat]

theorem claimC3_witness :
    ((Writer.add 11 c3run.1 (Entry.keyVal [96] [3] none)).2 = some Err.outOfOrderWrite ↔
      cmpBytes (Entry.keyVal [97] [2] none).key (Entry.keyVal [96] [3] none).key = Ordering.gt) ∧
    (cmpBytes (Entry.keyVal [97] [2] none).key (Entry.keyVal [96] [3] none).key = Ordering.gt →
      (Writer.add 11 c3run.1 (Entry.keyVal [96] [3] none)).1.blocks = c3run.1.blocks) ∧
    (cmpBytes (Entry.keyVal [97] [2] none).key (Entry.keyVal [96] [3] none).key ≠ Ordering.gt →
      (Writer.add 11 c3run.1 (Entry.keyVal [96] [3] none)).2 = none ∧
      (Writer.add 11 c3run.1 (Entry.keyVal [96] [3] none)).1.blocks.getLast? =
        some { level := 0, size := 32 + (Entry.keyVal [96] [3] none).encodedSize,
               members := [Entry.keyVal [97] [1] none, Entry.keyVal [97] [2] none,
                 Entry.keyVal [96] [3] none] }) := by
  have h := claimC3_amended c3run.1 (Entry.keyVal [96] [3] none) 10
    ⟨0, 32, [Entry.keyVal [97] [1] none, Entry.keyVal [97] [2] none]⟩
    (Entry.keyVal [97] [2] none) (by rfl) rfl rfl (by norm_num [Entry.encodedSize, BLOCK_SIZE])
  simpa using h

/-! ## Claim C6 -/

/-- C6 (counterexample): the claim states the encoded entry is written and
synced to the log **before** the in-memory map is updated, so that a failing
log write leaves the map unchanged.  In `Nursery::write_internal` the map
insertion happens first: with the log write failing, `add` returns the I/O
error but the new binding is visible in the map. -/
theorem claimC6_counterexample :
    (Nursery.add c6nursery [7] [8] false true 10).2 = .error Err.ioErr ∧
    (Nursery.add c6nursery [7] [8] false true 10).1.data = [([7], NValue.plain [8])] := by
  constructor <;> rfl

/-- C6 (amended): for every `Nursery::add(k,v)` and `Nursery::delete(k)`, the
in-memory sorted map is updated **first**; the encoded entry is then appended
to the log via `write_all` and synced via `sync_data`; hence if the log write
or the sync fails, the call returns the error with the mutation already
applied to the in-memory map. -/
theorem claimC6_amended (n : Nursery) (key value : List Nat) (writeOk syncOk : Bool)
    (fuel : Nat) (h : writeOk = false ∨ syncOk = false) :
    ((Nursery.add n key value writeOk syncOk fuel).2 = .error Err.ioErr ∧
     (Nursery.add n key value writeOk syncOk fuel).1.data =
       mapInsert n.data key (.plain value)) ∧
    ((Nursery.delete n key writeOk syncOk fuel).2 = .error Err.ioErr ∧
     (Nursery.delete n key writeOk syncOk fuel).1.data =
       mapInsert n.data key .deletedV) := by
  cases writeOk <;> cases syncOk <;>
    simp_all [Nursery.add, Nursery.delete, Nursery.writeInternal]

theorem claimC6_witness :
    ((Nursery.add c6nursery [7] [8] true false 10).2 = .error Err.ioErr ∧
     (Nursery.add c6nursery [7] [8] true false 10).1.data =
       mapInsert c6nursery.data [7] (.plain [8])) ∧
    ((Nursery.delete c6nursery [7] true false 10).2 = .error Err.ioErr ∧
     (Nursery.delete c6nursery [7] true false 10).1.data =
       mapInsert c6nursery.data [7] .deletedV) :=
  claimC6_amended c6nursery [7] [8] true false 10 (Or.inr rfl)

/-! ## Claim C7 -/

/-- C7 (counterexample): the claim states that a `Writer` closed without
entries records `bloom_len = 0` in its trailer.  Closing a fresh writer
succeeds, and the `bloom_len` field — the 4 bytes twelve from the end of the
file — is nonzero: `Trailer::encode` always writes the serialized bloom
filter, which is never empty. -/
theorem claimC7_counterexample :
    c7closed.2 = none ∧
    beToNat (sliceGet c7closed.1.fileBytes (c7closed.1.fileBytes.length - 12) 4) ≠ 0 := by
  constructor
  · rfl
  · decide

/-- C7 (amended): a `Writer` closed without entries writes the serialized
bloom filter into the trailer, recording its (nonzero) byte length as
`bloom_len`; and whenever a reader loads a trailer whose serialized bloom
filter is empty (`bloom_len = 0`), it constructs a default bloom-filter
instance sized for 1024 expected items at the 0.01 false-positive rate. -/
theorem claimC7_amended :
    (∀ n fuel : Nat,
      (Writer.close (fuel + 1) (Writer.withExpectedNumItems n)).2 = none ∧
      beToNat (sliceGet (Writer.close (fuel + 1) (Writer.withExpectedNumItems n)).1.fileBytes
          ((Writer.close (fuel + 1) (Writer.withExpectedNumItems n)).1.fileBytes.length - 12) 4) =
        ((Bloom.withFalsePos001 n).serialize).length ∧
      ((Bloom.withFalsePos001 n).serialize).length ≠ 0) ∧
    (∀ rootPos : Nat, Trailer.new [] rootPos = .ok ⟨Bloom.withFalsePos001 1024, rootPos⟩) := by
  constructor
  · intro n fuel
    refine ⟨rfl, ?_, by simp [Bloom.serialize, Bloom.withFalsePos001]⟩
    have hfile : (Writer.close (fuel + 1) (Writer.withExpectedNumItems n)).1.fileBytes =
        [72, 65, 78, 51, 0, 0, 0, 0, 0, 0, 0, 0, 0, 0, 1, 100, n, 0, 0, 0, 0, 4,
         0, 0, 0, 0, 0, 0, 0, 4] := by
      simp [Writer.close, Writer.closeLoop, Writer.withExpectedNumItems,
        Trailer.withBloomFilter, Trailer.encode, Bloom.serialize, Bloom.withFalsePos001,
        magicBytes, be32, be64, FIRST_BLOCK_POS]
    rw [hfile]
    rfl
  · intro rootPos
    rfl

/-! ## Claims C1 and C2

The two-leaf file built from `sampleKv` and `sampleDel` (ascending distinct
keys, every writer step succeeding) reopens fine, but every descent through
the internal root fails: the writer records `2 + 1 + contents` as a pointer's
`blocklen` while `Block::from_start_length` expects it to exceed the stored
block length by exactly the 4 `blocklen` bytes, so `get_entry` errors and
the `entries()` iterator, which drops block-read errors with `.ok()?`,
yields nothing. -/

set_option maxRecDepth 40000 in
set_option maxHeartbeats 16000000 in
theorem c12s1_ok : c12s1.2 = none := rfl

set_option maxRecDepth 40000 in
set_option maxHeartbeats 16000000 in
theorem c12s3_ok : c12s3.2 = none := rfl

set_option maxRecDepth 40000 in
set_option maxHeartbeats 16000000 in
theorem c12close_ok : (Writer.close 10 c12s5.1).2 = none := rfl

set_option maxRecDepth 40000 in
set_option maxHeartbeats 16000000 in
theorem c12file_bytes : c12file = c12bytes := rfl

set_option maxRecDepth 40000 in
set_option maxHeartbeats 16000000 in
/-- C1 (refuted): both entries were accepted by the writer and sit in the
file's two leaf blocks, yet `get_entry` on the reopened file returns
`IncorrectBlockLength` for both keys instead of the entries: the `blocklen`
stored in each root `PosLen` disagrees (by the 4-byte length prefix) with
what `Block::from_start_length` requires. -/
theorem claimC1_code_bug :
    c12s1.2 = none ∧ c12s3.2 = none ∧ (Writer.close 10 c12s5.1).2 = none ∧
    c12file = c12bytes ∧
    (BlockR.fromStart c12bytes 4).map (fun b => b.entriesList c12bytes) = .ok [sampleKv] ∧
    (BlockR.fromStart c12bytes 29).map (fun b => b.entriesList c12bytes) = .ok [sampleDel] ∧
    (Tree.fromFile c12bytes).map (fun t => t.getEntry 10 sampleKv.key) =
      .ok (.error (Err.incorrectBlockLength 17 21)) ∧
    (Tree.fromFile c12bytes).map (fun t => t.getEntry 10 sampleDel.key) =
      .ok (.error (Err.incorrectBlockLength 11 15)) :=
  ⟨c12s1_ok, c12s3_ok, c12close_ok, c12file_bytes, rfl, rfl, rfl, rfl⟩

set_option maxRecDepth 40000 in
set_option maxHeartbeats 16000000 in
/-- C2 (refuted): a strictly ascending two-key run written through a fresh
writer and closed, reopened, iterates to the empty list, not to the input
sequence (the iterator silently drops the `IncorrectBlockLength` failures of
the root's `PosLen` descents); the empty-writer half of the claim does hold:
a writer closed without any `add` yields a valid tree with empty
`entries()`. -/
theorem claimC2_code_bug :
    cmpBytes sampleKv.key sampleDel.key = Ordering.lt ∧
    c12s1.2 = none ∧ c12s3.2 = none ∧ (Writer.close 10 c12s5.1).2 = none ∧
    c12file = c12bytes ∧
    (Tree.fromFile c12bytes).map (fun t => t.entriesList 20) = .ok (.ok []) ∧
    (Tree.fromFile c7closed.1.fileBytes).map (fun t => t.entriesList 20) = .ok (.ok []) :=
  ⟨rfl, c12s1_ok, c12s3_ok, c12close_ok, c12file_bytes, rfl, rfl⟩

/-! ## Claim C5 -/

set_option maxRecDepth 40000 in
set_option maxHeartbeats 16000000 in
theorem c5fileA_bytes : c5fileA = c5fileAbytes := rfl

set_option maxRecDepth 40000 in
set_option maxHeartbeats 16000000 in
theorem c5fileB_bytes : c5fileB = c5fileBbytes := rfl

set_option maxRecDepth 40000 in
set_option maxHeartbeats 16000000 in
theorem c5treeA_eq : Tree.fromFile c5fileAbytes = .ok c5treeA := rfl

set_option maxRecDepth 40000 in
set_option maxHeartbeats 16000000 in
theorem c5treeB_eq : Tree.fromFile c5fileBbytes = .ok c5treeB := rfl

set_option maxRecDepth 40000 in
set_option maxHeartbeats 16000000 in
theorem c5merger_eq : Merger.new [] 10 c5treeA c5treeB 20 = .ok (c5merger0, xFs10) := rfl

set_option maxRecDepth 40000 in
set_option maxHeartbeats 16000000 in
theorem c5merge_run :
    MergerM.incrementalMerge 40 c5merger0 512 = .ok (.complete 1 2 c5xbytes) := rfl

set_option maxRecDepth 40000 in
set_option maxHeartbeats 16000000 in
/-- C5 (refuted): the first leaf of `B` really holds the new value for key
`[97]`, but `Merger::new` sees `B` as empty (its entry iteration dies on the
broken `PosLen` descent), so the completed merge emits `A`'s old entry: `X`'s
`get_entry([97])` returns `c5aOld`, not `B`'s `c5aNew` as the claim
requires. -/
theorem claimC5_code_bug :
    (BlockR.fromStart c5fileBbytes 4).map (fun b => b.entriesList c5fileBbytes) =
      .ok [c5aNew] ∧
    c5merge = .ok (.complete 1 2 c5xbytes) ∧
    (Tree.fromFile c5xbytes).map (fun t => t.getEntry 10 [97]) = .ok (.ok (some c5aOld)) ∧
    c5aOld ≠ c5aNew := by
  refine ⟨rfl, ?_, rfl, by decide⟩
  unfold c5merge
  rw [c5fileA_bytes, c5fileB_bytes, c5treeA_eq, c5treeB_eq]
  show (match Merger.new [] 10 c5treeA c5treeB 20 with
        | .ok (m, _) => MergerM.incrementalMerge 40 m 512
        | .error e => .error e) = .ok (.complete 1 2 c5xbytes)
  rw [c5merger_eq]
  show MergerM.incrementalMerge 40 c5merger0 512 = .ok (.complete 1 2 c5xbytes)
  exact c5merge_run

/-! ## Claim C8 -/

/-- C8: when `Level::merge` runs with an in-progress merger and the computed
step budget `depth·work_unit − work_completed` saturates to zero, it returns
an empty command list, the merger (taken from the level at entry) is gone and
the directory is untouched — so the partially written `X-{L}.data` persists —
and any later `merge` on the resulting level builds a brand-new `Merger`
whose writer opens `X-{L}.data` with `create_new` and fails with
`AlreadyExists`. -/
theorem claimC8_merger_dropped (lv : LevelM) (fs : FS)
    (workCompleted workUnit minLevel maxLevel fuel : Nat) (m : MergerM)
    (hm : lv.merger = some m)
    (hbudget : (maxLevel - minLevel + 1) * workUnit ≤ workCompleted) :
    (LevelM.merge lv fs workCompleted workUnit minLevel maxLevel fuel).2 = .ok [] ∧
    (LevelM.merge lv fs workCompleted workUnit minLevel maxLevel fuel).1.1 =
      { lv with merger := none } ∧
    (LevelM.merge lv fs workCompleted workUnit minLevel maxLevel fuel).1.2 = fs ∧
    (∀ (aT bT : TreeM) (aL bL : List Entry) (wc2 wu2 fuel2 : Nat),
      lv.a = some aT → lv.b = some bT →
      aT.entriesList fuel2 = .ok aL → bT.entriesList fuel2 = .ok bL →
      fsLookup fs (FileName.levelFile .lx lv.level) ≠ none →
      (LevelM.merge { lv with merger := none } fs wc2 wu2 minLevel maxLevel fuel2).2 =
        .error Err.ioAlreadyExists) := by
  have h1 : LevelM.maybeCreateMerger lv fs fuel = ((lv, fs), none) := by
    cases ha : lv.a <;> cases hb : lv.b <;>
      simp [LevelM.maybeCreateMerger, hm, ha, hb]
  have hz : (maxLevel - minLevel + 1) * workUnit - workCompleted = 0 := by omega
  have hred : LevelM.merge lv fs workCompleted workUnit minLevel maxLevel fuel =
      (({ lv with merger := none }, fs), .ok []) := by
    unfold LevelM.merge
    rw [h1]
    simp [hm, hz]
  refine ⟨by rw [hred], by rw [hred], by rw [hred], ?_⟩
  intro aT bT aL bL wc2 wu2 fuel2 ha hb haL hbL hx
  unfold LevelM.merge LevelM.maybeCreateMerger
  simp only [ha, hb]
  unfold Merger.new Writer.createNewFS
  rw [haL, hbL]
  cases hxx : fsLookup fs (FileName.levelFile .lx lv.level) with
  | none => exact absurd hxx hx
  | some v => simp [hxx]

set_option maxRecDepth 40000 in
set_option maxHeartbeats 16000000 in
theorem claimC8_witness :
    c8level.merger = some c8merger ∧
    (25 - 10 + 1) * 512 ≤ 8192 ∧
    ((LevelM.merge c8level c8fs 8192 512 10 25 40).2 = .ok [] ∧
     (LevelM.merge c8level c8fs 8192 512 10 25 40).1.1 =
       { c8level with merger := none } ∧
     (LevelM.merge c8level c8fs 8192 512 10 25 40).1.2 = c8fs ∧
     (∀ (aT bT : TreeM) (aL bL : List Entry) (wc2 wu2 fuel2 : Nat),
       c8level.a = some aT → c8level.b = some bT →
       aT.entriesList fuel2 = .ok aL → bT.entriesList fuel2 = .ok bL →
       fsLookup c8fs (FileName.levelFile .lx c8level.level) ≠ none →
       (LevelM.merge { c8level with merger := none } c8fs wc2 wu2 10 25 fuel2).2 =
         .error Err.ioAlreadyExists)) ∧
    c8tree.entriesList 20 = .ok [] ∧
    (LevelM.merge { c8level with merger := none } c8fs 0 512 10 25 20).2 =
      .error Err.ioAlreadyExists := by
  have h := claimC8_merger_dropped c8level c8fs 8192 512 10 25 40 c8merger rfl (by norm_num)
  have hAB : c8tree.entriesList 20 = .ok [] := rfl
  refine ⟨rfl, by norm_num, h, hAB, ?_⟩
  exact h.2.2.2 c8tree c8tree [] [] 0 512 20 rfl rfl hAB hAB (by simp [c8fs, fsLookup, c8level])

/-! ## Claim C9 -/

set_option maxRecDepth 40000 in
set_option maxHeartbeats 16000000 in
theorem c9a1_ok : c9a1.2 = none := rfl

set_option maxRecDepth 40000 in
set_option maxHeartbeats 16000000 in
theorem c9close_ok : (Writer.close 10 c9a5.1).2 = none := rfl

set_option maxRecDepth 40000 in
set_option maxHeartbeats 16000000 in
theorem c9fileA_bytes : c9fileA = c9fileAbytes := rfl

set_option maxRecDepth 40000 in
set_option maxHeartbeats 16000000 in
theorem c9fileB_bytes : c9fileB = c9fileBbytes := rfl

set_option maxRecDepth 40000 in
set_option maxHeartbeats 16000000 in
theorem c9treeA_eq : Tree.fromFile c9fileAbytes = .ok c9treeA := rfl

set_option maxRecDepth 40000 in
set_option maxHeartbeats 16000000 in
theorem c9treeB_eq : Tree.fromFile c9fileBbytes = .ok c9treeB := rfl

set_option maxRecDepth 40000 in
set_option maxHeartbeats 16000000 in
theorem c9merger_eq : Merger.new [] 10 c9treeA c9treeB 20 = .ok (c9merger0, xFs10) := rfl

set_option maxRecDepth 40000 in
set_option maxHeartbeats 16000000 in
theorem c9merge_run :
    MergerM.incrementalMerge 40 c9merger0 512 = .ok (.complete 1 2 c9xbytes) := rfl

set_option maxRecDepth 40000 in
set_option maxHeartbeats 16000000 in
/-- C9 (refuted): the tombstone `c9tomb` was accepted by the writer and sits
in `A`'s first leaf, but the merge of `A` and `B` completes with an `X` file
holding only `B`'s entry: the tombstone is dropped (the merger's input
iteration over `A` dies on the broken `PosLen` descent), not carried
unchanged as the claim requires. -/
theorem claimC9_code_bug :
    c9a1.2 = none ∧ (Writer.close 10 c9a5.1).2 = none ∧
    c9fileA = c9fileAbytes ∧
    (BlockR.fromStart c9fileAbytes 4).map (fun b => b.entriesList c9fileAbytes) =
      .ok [c9tomb] ∧
    c9merge = .ok (.complete 1 2 c9xbytes) ∧
    (Tree.fromFile c9xbytes).map (fun t => t.entriesList 20) =
      .ok (.ok [Entry.keyVal [99] [9] none]) := by
  refine ⟨c9a1_ok, c9close_ok, c9fileA_bytes, rfl, ?_, rfl⟩
  unfold c9merge
  rw [c9fileA_bytes, c9fileB_bytes, c9treeA_eq, c9treeB_eq]
  show (match Merger.new [] 10 c9treeA c9treeB 20 with
        | .ok (m, _) => MergerM.incrementalMerge 40 m 512
        | .error e => .error e) = .ok (.complete 1 2 c9xbytes)
  rw [c9merger_eq]
  show MergerM.incrementalMerge 40 c9merger0 512 = .ok (.complete 1 2 c9xbytes)
  exact c9merge_run

/-! ## Claim C10

`get_entry` returns entries only out of leaf blocks; writer-produced leaf
blocks hold no `PosLen` entries; and the `unreachable!` in `HanoiDB::get` is
never taken when the levels uphold that contract. -/

theorem getEntryGo_leaf (t : TreeM) :
    ∀ (fuel : Nat) (block : BlockR) (key : List Nat) (e : Entry),
      TreeM.getEntryGo t fuel block key = .ok (some e) →
      ∃ b : BlockR, b.level = 0 ∧ e ∈ b.entriesList t.fileBytes ∧ (e.key == key) = true := by
  intro fuel
  induction fuel with
  | zero => intro block key e h; exact absurd h (by simp [TreeM.getEntryGo])
  | succ f ih =>
    intro block key e h
    rw [TreeM.getEntryGo] at h
    by_cases hl : block.level > 0
    · simp only [hl] at h
      simp only [if_true] at h
      split at h
      · split at h
        · exact ih _ key e h
        · simp at h
      · simp at h
    · simp only [hl] at h
      simp only [if_false] at h
      have hl0 : block.level = 0 := by omega
      simp only [Except.ok.injEq] at h
      have hmem := List.mem_of_find?_eq_some h
      have hpred := List.find?_some h
      exact ⟨block, hl0, hmem, by simpa using hpred⟩

theorem getEntry_leaf (t : TreeM) (fuel : Nat) (key : List Nat) (e : Entry)
    (h : t.getEntry fuel key = .ok (some e)) :
    ∃ b : BlockR, b.level = 0 ∧ e ∈ b.entriesList t.fileBytes ∧ (e.key == key) = true := by
  rw [TreeM.getEntry] at h
  split at h
  · simp at h
  · split at h
    · exact getEntryGo_leaf t fuel _ key e h
    · simp at h

theorem nurseryFlushEntries_pure (data : List (List Nat × NValue)) :
    ∀ e ∈ nurseryFlushEntries data, e.isPosLen = false := by
  intro e he
  rw [nurseryFlushEntries] at he
  rcases List.mem_map.mp he with ⟨p, _, hpe⟩
  cases hp : p.2 <;> simp [← hpe, hp, Entry.isPosLen]

theorem levelGetGo_no_poslen (fuel : Nat) (key : List Nat) :
    ∀ (ts : List (Option TreeM)),
      (∀ t : TreeM, some t ∈ ts → ∀ e' : Entry,
        t.getEntry fuel key = .ok (some e') → e'.isPosLen = false) →
      ∀ e : Entry, levelGetGo fuel key ts = .ok (some e) → e.isPosLen = false := by
  intro ts
  induction ts with
  | nil => intro _ e h; exact absurd h (by simp [levelGetGo])
  | cons hd rest ih =>
    intro hts e h
    cases hd with
    | none =>
      rw [levelGetGo] at h
      exact ih (fun t ht => hts t (List.mem_cons_of_mem _ ht)) e h
    | some t =>
      rw [levelGetGo] at h
      split at h
      · simp at h
      · rename_i heq
        simp only [Except.ok.injEq, Option.some.injEq] at h
        subst h
        exact hts t (List.mem_cons_self _ _) _ heq
      · exact ih (fun t' ht' => hts t' (List.mem_cons_of_mem _ ht')) e h

theorem levelGet_no_poslen (lv : LevelM) (fuel : Nat) (key : List Nat)
    (hts : ∀ t : TreeM, (lv.c = some t ∨ lv.b = some t ∨ lv.a = some t) →
      ∀ e' : Entry, t.getEntry fuel key = .ok (some e') → e'.isPosLen = false) :
    ∀ e : Entry, lv.getEntry fuel key = .ok (some e) → e.isPosLen = false := by
  intro e h
  rw [LevelM.getEntry] at h
  refine levelGetGo_no_poslen fuel key [lv.c, lv.b, lv.a] ?_ e h
  intro t ht e' he'
  refine hts t ?_ e' he'
  simp only [List.mem_cons, List.not_mem_nil, or_false] at ht
  rcases ht with h1 | h1 | h1 <;> [exact Or.inl h1.symm; exact Or.inr (Or.inl h1.symm);
    exact Or.inr (Or.inr h1.symm)]

theorem dbLevelsGet_no_crash (fuel : Nat) (key : List Nat) :
    ∀ (levels : List LevelM),
      (∀ lv ∈ levels, (∀ e : Entry, lv.getEntry fuel key = .ok (some e) →
          e.isPosLen = false) ∧ lv.getEntry fuel key ≠ .error Err.crash) →
      dbLevelsGet fuel key levels ≠ .error Err.crash := by
  intro levels
  induction levels with
  | nil => intro _; simp [dbLevelsGet]
  | cons lv rest ih =>
    intro hl
    rw [dbLevelsGet]
    split
    · rename_i e' heq
      intro hc
      have he' : e' = Err.crash := by injection hc
      exact (hl lv (List.mem_cons_self _ _)).2 (by rw [heq, he'])
    · simp
    · simp
    · rename_i heq
      have := (hl lv (List.mem_cons_self _ _)).1 _ heq
      simp [Entry.isPosLen] at this
    · exact ih (fun lv' h' => hl lv' (List.mem_cons_of_mem _ h'))

theorem dbGet_no_crash (nurseryData : List (List Nat × NValue)) (levels : List LevelM)
    (fuel : Nat) (key : List Nat)
    (hl : ∀ lv ∈ levels, (∀ e : Entry, lv.getEntry fuel key = .ok (some e) →
        e.isPosLen = false) ∧ lv.getEntry fuel key ≠ .error Err.crash) :
    dbGet nurseryData levels fuel key ≠ .error Err.crash := by
  rw [dbGet]
  split
  · simp
  · simp
  · exact dbLevelsGet_no_crash fuel key levels hl

theorem eq_dropLast_concat {α : Type} :
    ∀ (l : List α) (b : α), l.getLast? = some b → l = l.dropLast ++ [b] := by
  intro l
  induction l with
  | nil => intro b h; simp at h
  | cons a t ih =>
    intro b h
    cases t with
    | nil => simp_all
    | cons c t' =>
      rw [List.getLast?_cons_cons] at h
      have := ih b h
      simp only [List.dropLast_cons₂]
      rw [List.cons_append, ← this]

theorem padLevels_members : ∀ (n target : Nat) (b : WBlock),
    b ∈ padLevels n target → b.members = [] := by
  intro n
  induction n with
  | zero => intro target b hb; simp [padLevels] at hb
  | succ l ih =>
    intro target b hb
    rw [padLevels] at hb
    split at hb
    · rcases List.mem_cons.mp hb with h | h
      · rw [h]
      · exact ih target b h
    · simp at hb

theorem padLevels_level_lt : ∀ (n target : Nat) (b : WBlock),
    b ∈ padLevels n target → target ≤ b.level ∧ b.level < n := by
  intro n
  induction n with
  | zero => intro target b hb; simp [padLevels] at hb
  | succ l ih =>
    intro target b hb
    rw [padLevels] at hb
    split at hb
    · rcases List.mem_cons.mp hb with h | h
      · rename_i hcond
        subst h
        simp only []
        omega
      · have := ih target b h
        omega
    · simp at hb

theorem padLevels_head_level : ∀ (n target : Nat) (b : WBlock),
    (padLevels n target).head? = some b → b.level + 1 = n := by
  intro n
  cases n with
  | zero => intro target b hb; simp [padLevels] at hb
  | succ l =>
    intro target b hb
    rw [padLevels] at hb
    split at hb
    · simp only [List.head?_cons, Option.some.injEq] at hb
      subst hb
      rfl
    · simp at hb

theorem padLevels_last_level : ∀ (n target : Nat) (b : WBlock),
    (padLevels n target).getLast? = some b → b.level = target := by
  intro n
  induction n with
  | zero => intro target b hb; simp [padLevels] at hb
  | succ l ih =>
    intro target b hb
    rw [padLevels] at hb
    split at hb
    · rename_i hcond
      cases hrec : padLevels l target with
      | nil =>
        rw [hrec] at hb
        simp only [List.getLast?_singleton, Option.some.injEq] at hb
        subst hb
        cases hl : l with
        | zero => simp only []; omega
        | succ m =>
          rw [hl] at hrec
          rw [padLevels] at hrec
          by_cases hc2 : target < Nat.succ m
          · rw [if_pos hc2] at hrec; simp at hrec
          · simp only []; omega
      | cons c t =>
        rw [hrec] at hb
        rw [List.getLast?_cons_cons] at hb
        rw [← hrec] at hb
        exact ih target b hb
    · simp at hb

theorem padLevels_chain : ∀ (n target : Nat), BlocksDesc (padLevels n target) := by
  intro n
  induction n with
  | zero => intro target; simp [padLevels, BlocksDesc]
  | succ l ih =>
    intro target
    rw [BlocksDesc, padLevels]
    split
    · rw [List.chain'_cons']
      refine ⟨?_, ih target⟩
      intro y hy
      have := padLevels_head_level l target y hy
      simp only []
      omega
    · simp

theorem getBlockAtLevel_ne_nil (blocks : List WBlock) (level : Nat) :
    Writer.getBlockAtLevel blocks level ≠ [] := by
  rw [Writer.getBlockAtLevel]
  cases h : blocks.getLast? with
  | none => simp
  | some lastB =>
    intro hc
    rcases List.append_eq_nil.mp hc with ⟨h1, _⟩
    rw [h1] at h
    simp at h

theorem getBlockAtLevel_desc (blocks : List WBlock) (level : Nat) (hd : BlocksDesc blocks) :
    BlocksDesc (Writer.getBlockAtLevel blocks level) := by
  rw [Writer.getBlockAtLevel]
  cases h : blocks.getLast? with
  | none => simp [BlocksDesc]
  | some lastB =>
    rw [BlocksDesc, List.chain'_append]
    refine ⟨hd, padLevels_chain _ _, ?_⟩
    intro x hx y hy
    rw [h] at hx
    simp only [Option.mem_def, Option.some.injEq] at hx
    subst hx
    have := padLevels_head_level lastB.level level y hy
    omega

theorem getBlockAtLevel_pure (blocks : List WBlock) (level : Nat)
    (hp : ∀ blk ∈ blocks, WBlockPure blk) :
    ∀ blk ∈ Writer.getBlockAtLevel blocks level, WBlockPure blk := by
  rw [Writer.getBlockAtLevel]
  cases h : blocks.getLast? with
  | none =>
    intro blk hblk
    simp only [List.mem_singleton] at hblk
    subst hblk
    intro _ e he
    simp at he
  | some lastB =>
    intro blk hblk
    rcases List.mem_append.mp hblk with hm | hm
    · exact hp blk hm
    · intro _ e he
      rw [padLevels_members _ _ _ hm] at he
      simp at he

theorem getLast?_append_cons {α : Type} (l1 : List α) (c : α) (t : List α) :
    (l1 ++ c :: t).getLast? = (c :: t).getLast? := by
  induction l1 with
  | nil => rfl
  | cons a l ih =>
    rw [List.cons_append]
    cases hl : l ++ c :: t with
    | nil => simp at hl
    | cons x xs => rw [List.getLast?_cons_cons, ← hl, ih]

theorem getBlockAtLevel_last_level (blocks : List WBlock) (level : Nat)
    (hC : ∀ lastB, blocks.getLast? = some lastB → level ≤ lastB.level) :
    ∀ b, (Writer.getBlockAtLevel blocks level).getLast? = some b → b.level = level := by
  rw [Writer.getBlockAtLevel]
  cases h : blocks.getLast? with
  | none =>
    intro b hb
    simp only [List.getLast?_singleton, Option.some.injEq] at hb
    subst hb
    rfl
  | some lastB =>
    intro b hb
    simp only [] at hb
    cases hpl : padLevels lastB.level level with
    | nil =>
      rw [hpl, List.append_nil, h] at hb
      simp only [Option.some.injEq] at hb
      subst hb
      have h1 := hC lastB h
      by_cases h2 : level < lastB.level
      · exfalso
        cases hlv : lastB.level with
        | zero => omega
        | succ m =>
          rw [hlv] at hpl
          rw [padLevels] at hpl
          rw [if_pos (by omega)] at hpl
          simp at hpl
      · omega
    | cons c t =>
      rw [hpl, getLast?_append_cons, ← hpl] at hb
      exact padLevels_last_level _ _ _ hb

theorem desc_update_last {blocks : List WBlock} {b b' : WBlock}
    (hd : BlocksDesc blocks) (hb : blocks.getLast? = some b) (hlvl : b'.level = b.level) :
    BlocksDesc (blocks.dropLast ++ [b']) := by
  have hsplit := eq_dropLast_concat blocks b hb
  rw [hsplit] at hd
  rw [BlocksDesc, List.chain'_append] at hd ⊢
  refine ⟨hd.1, by simp, ?_⟩
  intro x hx y hy
  simp only [List.head?_cons, Option.mem_def, Option.some.injEq] at hy
  subst hy
  rw [hlvl]
  exact hd.2.2 x hx b (by simp)

theorem getLast?_isSome_of_ne_nil {α : Type} :
    ∀ (l : List α), l ≠ [] → ∃ b, l.getLast? = some b := by
  intro l
  induction l with
  | nil => intro h; exact absurd rfl h
  | cons a t ih =>
    intro _
    cases t with
    | nil => exact ⟨a, rfl⟩
    | cons c t' =>
      obtain ⟨b, hb⟩ := ih (by simp)
      exact ⟨b, by rw [List.getLast?_cons_cons]; exact hb⟩

theorem desc_dropLast {blocks : List WBlock} (hd : BlocksDesc blocks) :
    BlocksDesc blocks.dropLast := by
  by_cases hq : blocks = []
  · subst hq; simpa using hd
  · obtain ⟨b, hb⟩ := getLast?_isSome_of_ne_nil blocks hq
    have hsplit := eq_dropLast_concat blocks b hb
    rw [hsplit, BlocksDesc, List.chain'_append] at hd
    exact hd.1

theorem desc_last_rel {blocks : List WBlock} {b lastB' : WBlock}
    (hd : BlocksDesc blocks) (hb : blocks.getLast? = some b)
    (hb' : blocks.dropLast.getLast? = some lastB') : b.level < lastB'.level := by
  have hsplit := eq_dropLast_concat blocks b hb
  rw [hsplit, BlocksDesc, List.chain'_append] at hd
  exact hd.2.2 lastB' hb' b (by simp)

theorem mem_of_mem_dropLast {α : Type} {l : List α} {x : α} (h : x ∈ l.dropLast) : x ∈ l := by
  by_cases hq : l = []
  · subst hq; simp at h
  · obtain ⟨b, hb⟩ := getLast?_isSome_of_ne_nil l hq
    rw [eq_dropLast_concat l b hb]
    exact List.mem_append_left _ h

theorem mem_of_getLast? {α : Type} {l : List α} {b : α} (h : l.getLast? = some b) : b ∈ l := by
  rw [eq_dropLast_concat l b h]
  exact List.mem_append_right _ (by simp)

theorem writer_inv_mutual : ∀ fuel : Nat,
    (∀ (w : Writer) (level : Nat) (entry : Entry), WriterInv w →
      (entry.isPosLen = true → 1 ≤ level ∧
        ∀ lastB, w.blocks.getLast? = some lastB → level ≤ lastB.level) →
      WriterInv (Writer.appendToBlock fuel w level entry).1) ∧
    (∀ w : Writer, WriterInv w → WriterInv (Writer.flushBlockBuffer fuel w).1) := by
  intro fuel
  induction fuel with
  | zero =>
    constructor
    · intro w level entry hw _
      rw [Writer.appendToBlock]
      exact hw
    · intro w hw
      rw [Writer.flushBlockBuffer]
      exact hw
  | succ f ih =>
    obtain ⟨ihA, ihF⟩ := ih
    constructor
    · intro w level entry hw hp
      rw [Writer.appendToBlock]
      simp only []
      have hdesc := getBlockAtLevel_desc w.blocks level hw.1
      have hpure := getBlockAtLevel_pure w.blocks level hw.2
      obtain ⟨bk, hbk⟩ := getLast?_isSome_of_ne_nil _ (getBlockAtLevel_ne_nil w.blocks level)
      have hbkmem : bk ∈ Writer.getBlockAtLevel w.blocks level := mem_of_getLast? hbk
      have hbkbang : (Writer.getBlockAtLevel w.blocks level).getLast! = bk :=
        List.getLast!_of_getLast? hbk
      have hw' : WriterInv { w with
          blocks := (Writer.getBlockAtLevel w.blocks level).dropLast ++
            [{ (Writer.getBlockAtLevel w.blocks level).getLast! with
                size := (Writer.getBlockAtLevel w.blocks level).getLast!.size +
                  entry.encodedSize,
                members := (Writer.getBlockAtLevel w.blocks level).getLast!.members ++
                  [entry] }]
          tombstoneCount := w.tombstoneCount + (if entry.isDeleted then 1 else 0)
          valueCount := w.valueCount + (if entry.isKeyVal then 1 else 0) } := by
        constructor
        · exact desc_update_last hdesc hbk (by rw [hbkbang])
        · intro blk hblk
          rcases List.mem_append.mp hblk with hm | hm
          · exact hpure blk (mem_of_mem_dropLast hm)
          · simp only [List.mem_singleton] at hm
            subst hm
            intro hl0 e he
            rw [hbkbang] at hl0 he
            simp only [] at hl0
            rcases List.mem_append.mp he with hm2 | hm2
            · exact hpure bk hbkmem hl0 e hm2
            · simp only [List.mem_singleton] at hm2
              subst hm2
              by_cases hpl : e.isPosLen = true
              · obtain ⟨h1, hC⟩ := hp hpl
                have := getBlockAtLevel_last_level w.blocks level hC bk hbk
                omega
              · simpa using hpl
      split
      · exact ⟨hdesc, hpure⟩
      · split
        · exact ihF _ hw'
        · exact hw'
    · intro w hw
      rw [Writer.flushBlockBuffer]
      cases hbl : w.blocks.getLast? with
      | none => exact hw
      | some block =>
        simp only []
        have hrest : WriterInv { w with blocks := w.blocks.dropLast } :=
          ⟨desc_dropLast hw.1, fun blk hblk => hw.2 blk (mem_of_mem_dropLast hblk)⟩
        cases hh : block.members.head? with
        | none => exact hrest
        | some firstEntry =>
          simp only []
          split
          · exact hrest
          · refine ihA _ (block.level + 1) _ ?_ ?_
            · exact hrest
            · intro _
              refine ⟨by omega, ?_⟩
              intro lastB' hlast'
              have := desc_last_rel hw.1 hbl hlast'
              omega

theorem writerInv_add (fuel : Nat) (w : Writer) (e : Entry)
    (hw : WriterInv w) (he : e.isPosLen = false) :
    WriterInv (Writer.add fuel w e).1 := by
  rw [Writer.add]
  have hw1 : WriterInv (if e.isPosLen then w else { w with bloom := w.bloom.insert e.key }) := by
    split
    · exact hw
    · exact ⟨hw.1, hw.2⟩
  exact (writer_inv_mutual fuel).1 _ 0 e hw1 (fun hc => absurd hc (by simp [he]))

theorem writerInv_runAdds (fuel : Nat) :
    ∀ (es : List Entry) (w : Writer), WriterInv w → (∀ e ∈ es, e.isPosLen = false) →
      WriterInv (Writer.runAdds fuel w es).1 := by
  intro es
  induction es with
  | nil => intro w hw _; rw [Writer.runAdds]; exact hw
  | cons e rest ih =>
    intro w hw hes
    rw [Writer.runAdds]
    have hadd := writerInv_add fuel w e hw (hes e (List.mem_cons_self _ _))
    split
    · rename_i w' heq
      have : w' = (Writer.add fuel w e).1 := by rw [heq]
      rw [← this] at hadd
      exact ih w' hadd (fun e' he' => hes e' (List.mem_cons_of_mem _ he'))
    · rename_i w' err heq
      have : w' = (Writer.add fuel w e).1 := by rw [heq]
      simpa [← this] using hadd

theorem writerInv_fresh (n : Nat) : WriterInv (Writer.withExpectedNumItems n) := by
  constructor
  · simp [Writer.withExpectedNumItems, BlocksDesc]
  · intro blk hblk
    simp [Writer.withExpectedNumItems] at hblk

set_option maxRecDepth 40000 in
set_option maxHeartbeats 16000000 in
theorem c5treeA_no_poslen (fuel : Nat) (k : List Nat) (e : Entry)
    (h : c5treeA.getEntry fuel k = .ok (some e)) : e.isPosLen = false := by
  by_cases hk : k = [97]
  · subst hk
    cases fuel with
    | zero =>
      have hz : c5treeA.getEntry 0 [97] = .error .fuelOut := rfl
      rw [hz] at h
      simp at h
    | succ f =>
      have hs : c5treeA.getEntry (Nat.succ f) [97] = .ok (some c5aOld) := rfl
      rw [hs] at h
      simp only [Except.ok.injEq, Option.some.injEq] at h
      subst h
      rfl
  · have hc : Bloom.contains c5treeA.trailer.bloom k = false := by
      simp [c5treeA, Bloom.contains, hk]
    rw [TreeM.getEntry, hc] at h
    simp at h

set_option maxRecDepth 40000 in
set_option maxHeartbeats 16000000 in
theorem c12tree_fromFile : Tree.fromFile c12bytes = .ok c12tree := rfl

set_option maxRecDepth 40000 in
set_option maxHeartbeats 16000000 in
theorem c12tree_no_entry (fuel : Nat) (k : List Nat) (e : Entry) :
    c12tree.getEntry fuel k ≠ .ok (some e) := by
  intro h
  by_cases hk1 : k = [97]
  · subst hk1
    cases fuel with
    | zero =>
      have hz : c12tree.getEntry 0 [97] = .error .fuelOut := rfl
      rw [hz] at h
      simp at h
    | succ f =>
      have hs : c12tree.getEntry (Nat.succ f) [97] =
          .error (Err.incorrectBlockLength 17 21) := rfl
      rw [hs] at h
      simp at h
  · by_cases hk2 : k = [98]
    · subst hk2
      cases fuel with
      | zero =>
        have hz : c12tree.getEntry 0 [98] = .error .fuelOut := rfl
        rw [hz] at h
        simp at h
      | succ f =>
        have hs : c12tree.getEntry (Nat.succ f) [98] =
            .error (Err.incorrectBlockLength 11 15) := rfl
        rw [hs] at h
        simp at h
    · have hc : Bloom.contains c12tree.trailer.bloom k = false := by
        simp [c12tree, Bloom.contains, hk1, hk2]
      rw [TreeM.getEntry, hc] at h
      simp at h

/-- C10: the pieces of the no-`PosLen`-returned safety argument.  (1) A
`Tree::get_entry` that yields an entry took it from a level-0 (leaf) block of
the file.  (2) The nursery flush feeds only `KeyVal`/`Deleted` entries to its
writer, and (3) a writer fed only such entries keeps every pending leaf block
free of `PosLen` (the `WriterInv` induction: `flush_block_buffer` pushes its
`PosLen` pointers only into blocks at level ≥ 1).  (4) `Level::get_entry`
forwards entries from its trees, so it cannot return a `PosLen` when they do
not, and (5) `HanoiDB::get` then never takes its `unreachable!` branch.
(6)–(8) concrete instances: on the single-leaf C5 `A` file every lookup
returns a non-`PosLen` entry, and on the two-leaf C1/C2 file no lookup
returns an entry at all (the descent fails), so no `PosLen` is ever
surfaced. -/
theorem claimC10_no_poslen :
    (∀ (t : TreeM) (fuel : Nat) (key : List Nat) (e : Entry),
      t.getEntry fuel key = .ok (some e) →
      ∃ b : BlockR, b.level = 0 ∧ e ∈ b.entriesList t.fileBytes ∧ (e.key == key) = true) ∧
    (∀ data : List (List Nat × NValue), ∀ e ∈ nurseryFlushEntries data,
      e.isPosLen = false) ∧
    (∀ (n fuel : Nat) (es : List Entry), (∀ e ∈ es, e.isPosLen = false) →
      ∀ blk ∈ (Writer.runAdds fuel (Writer.withExpectedNumItems n) es).1.blocks,
        blk.level = 0 → ∀ e ∈ blk.members, e.isPosLen = false) ∧
    (∀ (lv : LevelM) (fuel : Nat) (key : List Nat),
      (∀ t : TreeM, (lv.c = some t ∨ lv.b = some t ∨ lv.a = some t) →
        ∀ e' : Entry, t.getEntry fuel key = .ok (some e') → e'.isPosLen = false) →
      ∀ e : Entry, lv.getEntry fuel key = .ok (some e) → e.isPosLen = false) ∧
    (∀ (nurseryData : List (List Nat × NValue)) (levels : List LevelM) (fuel : Nat)
        (key : List Nat),
      (∀ lv ∈ levels, (∀ e : Entry, lv.getEntry fuel key = .ok (some e) →
          e.isPosLen = false) ∧ lv.getEntry fuel key ≠ .error Err.crash) →
      dbGet nurseryData levels fuel key ≠ .error Err.crash) ∧
    (∀ (fuel : Nat) (k : List Nat) (e : Entry),
      c5treeA.getEntry fuel k = .ok (some e) → e.isPosLen = false) ∧
    Tree.fromFile c12bytes = .ok c12tree ∧
    (∀ (fuel : Nat) (k : List Nat) (e : Entry), c12tree.getEntry fuel k ≠ .ok (some e)) := by
  refine ⟨getEntry_leaf, nurseryFlushEntries_pure, ?_, levelGet_no_poslen,
    dbGet_no_crash, c5treeA_no_poslen, c12tree_fromFile, c12tree_no_entry⟩
  intro n fuel es hes blk hblk hl0 e he
  exact (writerInv_runAdds fuel es (Writer.withExpectedNumItems n)
    (writerInv_fresh n) hes).2 blk hblk hl0 e he

end HanoiDB
